import Mathlib

/-!
A verification development for the DBKey spectral-library converter
(Go sources: pkg/core/chemistry.go, the core spectrum model, pkg/filter/filter.go,
and the MSP and SPTXT streaming readers).

Modelling conventions, used throughout:

* Go strings are modelled as `List Char`; the helper functions `trimSpace`,
  `goSplit`, `goFields`, `goAtoi`, `goParseFloat`, ... mirror the corresponding
  functions of Go's `strings` and `strconv` packages as the sources use them.
  `goParseFloat` covers the decimal and exponent forms of `strconv.ParseFloat`;
  the float-syntax forms with no exact rational value ("Inf", "NaN") and hex
  floats are not representable here and parse to `none`.
* Go `float64` values are modelled as exact rationals (`ℚ`).  `NaN` and `±Inf`
  have no representative, so `math.IsNaN`/`math.IsInf` tests from the source
  are modelled as constantly false (marked where they occur).
* `sort.Slice` (an unstable sort by a strict `less` predicate, used by
  `Spectrum.SortPeaks` and `filterTopN`) is modelled as `List.insertionSort`
  with the corresponding non-strict total relation; the two agree up to the
  order of ties, which `sort.Slice` leaves unspecified.
* `fmt.Sprintf("%.6f", x)` values are compared only for equality in the
  source; the comparison is modelled by `fmt6`, the integer `round (10^6 * x)`
  (the negative-zero and decimal-tie corner cases of `%.6f` do not arise for
  the modification masses concerned).
* Errors are modelled as their message strings (`Except (List Char)` /
  `Option (List Char)`).
-/

namespace DBKey

/- The arithmetic of `Rat` is `@[irreducible]` in Batteries; re-opening it
lets closed propositions about the embedded functions be settled by `decide`
(kernel reduction). -/
attribute [local semireducible] Rat.ofScientific Rat.mul Rat.inv Rat.add Rat.sub

/-! ## Go string primitives (strings / strconv) -/

/-- The whitespace characters of `strings.TrimSpace` (the ASCII ones;
sequences and header lines contain no exotic Unicode spaces). -/
def isSpaceChar (c : Char) : Bool :=
  c == ' ' || c == '\t' || c == '\n' || c == '\r' || c == '\x0b' || c == '\x0c'

/-- `strings.TrimSpace`. -/
def trimSpace (s : List Char) : List Char :=
  ((s.dropWhile isSpaceChar).reverse.dropWhile isSpaceChar).reverse

/-- `strings.TrimPrefix`. -/
def goTrimPrefix (s pfx : List Char) : List Char :=
  if pfx.isPrefixOf s then s.drop pfx.length else s

/-- `strings.Trim` with a cutset: strip any run of cutset characters from
both ends. -/
def goTrimSet (s cutset : List Char) : List Char :=
  ((s.dropWhile (fun c => cutset.contains c)).reverse.dropWhile
    (fun c => cutset.contains c)).reverse

/-- `strings.TrimLeft` with a cutset. -/
def goTrimLeftSet (s cutset : List Char) : List Char :=
  s.dropWhile (fun c => cutset.contains c)

/-- Worker for `goSplit`: split at each occurrence of the (non-empty)
separator, scanning left to right.  The extra `Nat` is recursion fuel (kept
above the string length by the callers), so the definition is structurally
recursive and reduces in the kernel. -/
def goSplitF (sep : List Char) : Nat → List Char → List (List Char)
  | 0, _ => [[]]
  | _ + 1, [] => [[]]
  | fuel + 1, c :: rest =>
    if sep.isPrefixOf (c :: rest) then
      [] :: goSplitF sep fuel (rest.drop (sep.length - 1))
    else
      match goSplitF sep fuel rest with
      | [] => [[c]]
      | p :: ps => (c :: p) :: ps

/-- `strings.Split`.  An empty separator explodes the string into its
characters, as in Go. -/
def goSplit (s sep : List Char) : List (List Char) :=
  match sep with
  | [] => s.map (fun c => [c])
  | _ :: _ => goSplitF sep (s.length + 1) s

/-- `strings.SplitN(s, sep, 2)`. -/
def goSplitN2 (s sep : List Char) : List (List Char) :=
  match goSplit s sep with
  | [] => [s]
  | p :: ps => if ps = [] then [p] else [p, List.intercalate sep ps]

/-- Fuel worker for `goFields`. -/
def goFieldsF : Nat → List Char → List (List Char)
  | 0, _ => []
  | _ + 1, [] => []
  | fuel + 1, c :: rest =>
    if isSpaceChar c then goFieldsF fuel rest
    else
      (c :: rest.takeWhile (fun ch => !isSpaceChar ch)) ::
        goFieldsF fuel (rest.dropWhile (fun ch => !isSpaceChar ch))

/-- `strings.Fields`: split around runs of whitespace, dropping empties. -/
def goFields (s : List Char) : List (List Char) := goFieldsF (s.length + 1) s

/-- `strings.Index(s, sub)`: byte index of the first occurrence, `-1` if
absent. -/
def goIndex (sub : List Char) : List Char → Int
  | [] => if sub.isPrefixOf ([] : List Char) then 0 else -1
  | c :: rest =>
    if sub.isPrefixOf (c :: rest) then 0
    else
      let i := goIndex sub rest
      if i < 0 then -1 else i + 1

/-- The numeric value of a decimal digit character. -/
def digitVal (c : Char) : Nat := c.toNat - 48

/-- The value of a string of decimal digits. -/
def digitsVal (ds : List Char) : Nat :=
  ds.foldl (fun a c => 10 * a + digitVal c) 0

/-- `strconv.Atoi`: an optional sign followed by one or more decimal digits
(no overflow in the model). -/
def goAtoi (s : List Char) : Option Int :=
  match s with
  | [] => none
  | '+' :: ds =>
    if ds ≠ [] ∧ ds.all Char.isDigit then some (digitsVal ds : Int) else none
  | '-' :: ds =>
    if ds ≠ [] ∧ ds.all Char.isDigit then some (-(digitsVal ds : Int)) else none
  | ds =>
    if ds.all Char.isDigit then some (digitsVal ds : Int) else none

/-- The optional exponent part of `strconv.ParseFloat`, applied to an already
parsed mantissa. -/
def withExp (m : ℚ) : List Char → Option ℚ
  | [] => some m
  | e :: rest =>
    if e == 'e' || e == 'E' then
      match goAtoi rest with
      | some k => some (m * (10 : ℚ) ^ (k : Int))
      | none => none
    else none

/-- The unsigned part of `strconv.ParseFloat`: digits, an optional fraction,
an optional exponent; at least one digit overall. -/
def parseUnsignedFloat (s : List Char) : Option ℚ :=
  let ip := s.takeWhile Char.isDigit
  match s.dropWhile Char.isDigit with
  | '.' :: r2 =>
    let fp := r2.takeWhile Char.isDigit
    if ip = [] ∧ fp = [] then none
    else
      withExp ((digitsVal ip : ℚ) + (digitsVal fp : ℚ) / (10 : ℚ) ^ fp.length)
        (r2.dropWhile Char.isDigit)
  | r1 => if ip = [] then none else withExp (digitsVal ip : ℚ) r1

/-- `strconv.ParseFloat` (decimal forms; see the module comment). -/
def goParseFloat (s : List Char) : Option ℚ :=
  match s with
  | '+' :: t => parseUnsignedFloat t
  | '-' :: t => (parseUnsignedFloat t).map (fun q => -q)
  | t => parseUnsignedFloat t

/-- The decimal digits of a natural number, most significant first (fuel
worker; `natToChars` supplies fuel above the number). -/
def natDigitsF : Nat → Nat → List Nat
  | 0, _ => []
  | fuel + 1, n => if n < 10 then [n] else natDigitsF fuel (n / 10) ++ [n % 10]

/-- A decimal digit as a character. -/
def digitChar10 (d : Nat) : Char := Char.ofNat (48 + d)

/-- Decimal rendering of a natural number (`fmt.Sprintf("%d", n)`). -/
def natToChars (n : Nat) : List Char := (natDigitsF (n + 1) n).map digitChar10

/-- Decimal rendering of an integer. -/
def intToChars (i : Int) : List Char :=
  if i < 0 then '-' :: natToChars i.natAbs else natToChars i.toNat

/-- `fmt.Sprintf("%.6f", q)`, reduced to the data the source compares:
the integer of the 6-decimal rounding (see the module comment). -/
def fmt6 (q : ℚ) : Int := round (q * 1000000)

/-- `fmt.Sprintf("%.0f", q)` as a string. -/
def fmt0 (q : ℚ) : List Char := intToChars (round q)

/-! ## pkg/core: data model (Spectrum, Peak, Modification) -/

/-- `core.Modification` (chemistry.go). `Position` is documented in the source
as the 0-based residue position, `-1` for the N-terminus. -/
structure Modification where
  Mass : ℚ
  Position : Int
  Name : List Char
deriving DecidableEq

/-- `core.Peak`.  `Annot` is the source's ion-label field (e.g. "y3", "b2^2").
NaN / ±Inf `float64` values have no representative in the rational model. -/
structure Peak where
  MZ : ℚ
  Intensity : ℚ
  Annot : List Char
  Charge : Int
deriving DecidableEq

/-- `core.Spectrum`. -/
structure Spectrum where
  Sequence : List Char
  Charge : Int
  PrecursorMZ : ℚ
  Peaks : List Peak
  FragmentationMode : List Char
  MassAnalyzer : List Char
  RetentionTime : Option ℚ
  CollisionEnergy : Option ℚ
  Modifications : List Modification
  Instrument : List Char
  MassOffset : ℚ
  CompoundClass : List Char
  SourceFile : List Char
  SourceFormat : List Char
deriving DecidableEq

/-- The Go zero value of `core.Spectrum`. -/
def emptySpectrum : Spectrum :=
  ⟨[], 0, 0, [], [], [], none, none, [], [], 0, [], [], []⟩

/-! ## pkg/core/chemistry.go: mass calculator -/

def MassH : ℚ := 1.0078250321
def MassC : ℚ := 12.0000000000
def MassN : ℚ := 14.0030740052
def MassO : ℚ := 15.9949146221
def MassS : ℚ := 31.9720706900
def MassP : ℚ := 30.9737615100
def ProtonMass : ℚ := 1.00727646688

/-- `core.AminoAcidComposition`. -/
structure AminoAcidComposition where
  C : Int
  H : Int
  N : Int
  O : Int
  S : Int
deriving DecidableEq

/-- The `core.AminoAcidMasses` map, as a lookup function (`m[aa]` with its
`ok` flag). -/
def AminoAcidMasses (c : Char) : Option AminoAcidComposition :=
  match c with
  | 'A' => some ⟨3, 5, 1, 1, 0⟩
  | 'R' => some ⟨6, 12, 4, 1, 0⟩
  | 'N' => some ⟨4, 6, 2, 2, 0⟩
  | 'D' => some ⟨4, 5, 1, 3, 0⟩
  | 'C' => some ⟨3, 5, 1, 1, 1⟩
  | 'E' => some ⟨5, 7, 1, 3, 0⟩
  | 'Q' => some ⟨5, 8, 2, 2, 0⟩
  | 'G' => some ⟨2, 3, 1, 1, 0⟩
  | 'H' => some ⟨6, 7, 3, 1, 0⟩
  | 'I' => some ⟨6, 11, 1, 1, 0⟩
  | 'L' => some ⟨6, 11, 1, 1, 0⟩
  | 'K' => some ⟨6, 12, 2, 1, 0⟩
  | 'M' => some ⟨5, 9, 1, 1, 1⟩
  | 'F' => some ⟨9, 9, 1, 1, 0⟩
  | 'P' => some ⟨5, 7, 1, 1, 0⟩
  | 'S' => some ⟨3, 5, 1, 2, 0⟩
  | 'T' => some ⟨4, 7, 1, 2, 0⟩
  | 'W' => some ⟨11, 10, 2, 1, 0⟩
  | 'Y' => some ⟨9, 9, 1, 2, 0⟩
  | 'V' => some ⟨5, 9, 1, 1, 0⟩
  | _ => none

/-- The residue-accumulation loop shared verbatim by `CalculatePeptideMass`
and `CalculateNeutralMass`: start from one water molecule and add each known
residue's composition (unknown residues contribute nothing). -/
def seqComposition (sequence : List Char) : AminoAcidComposition :=
  sequence.foldl
    (fun comp aa =>
      match AminoAcidMasses aa with
      | some a => ⟨comp.C + a.C, comp.H + a.H, comp.N + a.N, comp.O + a.O, comp.S + a.S⟩
      | none => comp)
    ⟨0, 2, 0, 1, 0⟩

/-- Conversion of an elemental composition to a monoisotopic mass. -/
def compositionMass (comp : AminoAcidComposition) : ℚ :=
  (comp.C : ℚ) * MassC + (comp.H : ℚ) * MassH + (comp.N : ℚ) * MassN +
    (comp.O : ℚ) * MassO + (comp.S : ℚ) * MassS

/-- `core.CalculatePeptideMass`. -/
def CalculatePeptideMass (sequence : List Char) (charge : Int)
    (modifications : List Modification) : ℚ :=
  let mass := compositionMass (seqComposition sequence)
  let mass := modifications.foldl (fun m mo => m + mo.Mass) mass
  (mass + (charge : ℚ) * ProtonMass) / (charge : ℚ)

/-- `core.CalculateNeutralMass`. -/
def CalculateNeutralMass (sequence : List Char)
    (modifications : List Modification) : ℚ :=
  let mass := compositionMass (seqComposition sequence)
  modifications.foldl (fun m mo => m + mo.Mass) mass

/-! ## pkg/core: spectrum methods (sorting, validation) -/

/-- `Spectrum.ArePeaksSorted`'s loop over a peak list: no adjacent pair with the
later m/z strictly below the earlier one. -/
def peaksSortedList : List Peak → Bool
  | [] => true
  | [_] => true
  | a :: b :: t => !decide (b.MZ < a.MZ) && peaksSortedList (b :: t)

/-- `core.Spectrum.ArePeaksSorted`. -/
def Spectrum.ArePeaksSorted (s : Spectrum) : Bool := peaksSortedList s.Peaks

/-- The comparison `SortPeaks` sorts by, as a non-strict total relation
(`sort.Slice` uses the strict `MZ <`; see the module comment). -/
def peakLE (p q : Peak) : Prop := p.MZ ≤ q.MZ

instance : DecidableRel peakLE := fun p q => inferInstanceAs (Decidable (p.MZ ≤ q.MZ))

instance : IsTotal Peak peakLE := ⟨fun a b => le_total a.MZ b.MZ⟩

instance : IsTrans Peak peakLE := ⟨fun _ _ _ h h2 => le_trans h h2⟩

/-- `core.Spectrum.SortPeaks`. -/
def Spectrum.SortPeaks (s : Spectrum) : Spectrum :=
  {s with Peaks := s.Peaks.insertionSort peakLE}

/-- `core.ValidationError`. -/
structure ValidationError where
  Field : List Char
  Message : List Char
deriving DecidableEq

/-- The per-peak loop of `Spectrum.Validate`.  The source's `math.IsNaN` /
`math.IsInf` tests on `peak.MZ` and `peak.Intensity` are constantly false in
the rational model and contribute no message. -/
def validatePeakErrs : Nat → List Peak → List (List Char)
  | _, [] => []
  | i, p :: t =>
    ((if p.MZ ≤ 0 then
        [("peak ").data ++ natToChars i ++ (" m/z must be positive").data]
      else []) ++
     (if p.Intensity < 0 then
        [("peak ").data ++ natToChars i ++ (" intensity must be non-negative").data]
      else [])) ++
    validatePeakErrs (i + 1) t

/-- The `errs` list `Spectrum.Validate` accumulates, in source order. -/
def Spectrum.validateErrs (s : Spectrum) : List (List Char) :=
  (if s.Sequence = [] then [("sequence is required").data] else []) ++
  (if s.Charge ≤ 0 then [("charge must be positive").data] else []) ++
  (if s.PrecursorMZ ≤ 0 then [("precursor m/z must be positive").data] else []) ++
  (if s.Peaks = [] then [("at least one peak is required").data] else []) ++
  (if s.FragmentationMode = [] then [("fragmentation mode is required").data] else []) ++
  (if s.MassAnalyzer = [] then [("mass analyzer is required").data] else []) ++
  validatePeakErrs 0 s.Peaks ++
  (if s.ArePeaksSorted then [] else [("peaks must be sorted by m/z").data])

/-- `core.Spectrum.Validate`: `none` models the `nil` error. -/
def Spectrum.Validate (s : Spectrum) : Option ValidationError :=
  let errs := s.validateErrs
  if errs = [] then none
  else some ⟨("Spectrum").data, List.intercalate (("; ").data) errs⟩

/-! ## pkg/filter/filter.go -/

/-- `filter.Config`. -/
structure Config where
  TopN : Int
  IntensityCutoff : ℚ
  IonTypes : List (List Char)
  DeltaFragment : ℚ
  OldModMass : ℚ
  NewModMass : ℚ
deriving DecidableEq

/-- `filter.matchesIonType`. -/
def matchesIonType (ann : List Char) (ionTypes : List (List Char)) : Bool :=
  if ann = [] then false
  else ionTypes.any (fun t => t.isPrefixOf ann)

/-- `filter.Config.filterByIonType` (always returns a `nil` error). -/
def Config.filterByIonType (c : Config) (s : Spectrum) : Spectrum :=
  if c.IonTypes = [] then s
  else {s with Peaks := s.Peaks.filter (fun p => matchesIonType p.Annot c.IonTypes)}

/-- The maximum-intensity loop of `filterByIntensity`: an accumulator starting
at `0.0`, raised by every strictly larger intensity. -/
def maxIntensityAcc (peaks : List Peak) : ℚ :=
  peaks.foldl (fun m p => if m < p.Intensity then p.Intensity else m) 0

/-- `filter.Config.filterByIntensity`. -/
def Config.filterByIntensity (c : Config) (s : Spectrum) : Spectrum :=
  if s.Peaks = [] then s
  else
    let maxIntensity := maxIntensityAcc s.Peaks
    let threshold := c.IntensityCutoff / 100 * maxIntensity
    {s with Peaks := s.Peaks.filter (fun p => decide (threshold ≤ p.Intensity))}

/-- The comparison `filterTopN` sorts its copy by: intensity descending, as a
non-strict total relation (the source's `sort.Slice` uses strict `>`). -/
def peakIntensityGE (p q : Peak) : Prop := q.Intensity ≤ p.Intensity

instance : DecidableRel peakIntensityGE :=
  fun p q => inferInstanceAs (Decidable (q.Intensity ≤ p.Intensity))

instance : IsTotal Peak peakIntensityGE := ⟨fun a b => le_total b.Intensity a.Intensity⟩

instance : IsTrans Peak peakIntensityGE := ⟨fun _ _ _ h h2 => le_trans h2 h⟩

/-- `filter.Config.filterTopN`. -/
def Config.filterTopN (c : Config) (s : Spectrum) : Spectrum :=
  if (s.Peaks.length : Int) ≤ c.TopN then s
  else {s with Peaks := (s.Peaks.insertionSort peakIntensityGE).take c.TopN.toNat}

/-- `filter.ionAnnotationInfo`. -/
structure IonAnnotationInfo where
  ionType : List Char
  position : Int
  charge : Int
deriving DecidableEq

/-- `filter.parseIonAnnotation`: the anchored match of
`^([a-z])(\d+)(?:\^(\d+))?` — one lowercase letter, a maximal digit run, and
an optional `^digits` group (absent, the fragment charge defaults to 1; a `^`
not followed by a digit leaves the optional group unmatched, as for the
regular expression). -/
def parseIonAnnotation (ann : List Char) : Option IonAnnotationInfo :=
  match ann with
  | [] => none
  | c :: rest =>
    if 'a' ≤ c ∧ c ≤ 'z' then
      let ds := rest.takeWhile Char.isDigit
      if ds = [] then none
      else
        let charge : Int :=
          match rest.dropWhile Char.isDigit with
          | '^' :: cs =>
            let cds := cs.takeWhile Char.isDigit
            if cds = [] then 1 else (digitsVal cds : Int)
          | _ => 1
        some ⟨[c], (digitsVal ds : Int), charge⟩
    else none

/-- The per-peak body of `adjustFragmentMasses`: the loop over the spectrum's
modifications, accumulating shifts into `peak.MZ`.  Only the ion types `"b"`
and `"y"` set `shouldAdjust`; any other parsed letter falls through both
branches and leaves the peak untouched. -/
def adjustPeak (c : Config) (seqLen : Int) (mods : List Modification) (p : Peak) : Peak :=
  if p.Annot = [] then p
  else
    match parseIonAnnotation p.Annot with
    | none => p
    | some info =>
      {p with MZ := (mods.foldl
        (fun mz m =>
          if fmt6 m.Mass = fmt6 c.OldModMass then
            if (info.ionType = ("b").data ∧ m.Position ≤ info.position) ∨
               (info.ionType = ("y").data ∧ seqLen - m.Position - 1 ≤ info.position) then
              mz + (c.NewModMass - c.OldModMass) / (info.charge : ℚ)
            else mz
          else mz)
        p.MZ)}

/-- `filter.Config.adjustFragmentMasses` (always returns a `nil` error). -/
def Config.adjustFragmentMasses (c : Config) (s : Spectrum) : Spectrum :=
  if s.Modifications = [] then s
  else
    {s with Peaks :=
      s.Peaks.map (adjustPeak c (s.Sequence.length : Int) s.Modifications)}

/-- The ion-type stage of `Config.Apply` with its guard
(`len(c.IonTypes) > 0`). -/
def Config.ionStep (c : Config) (s : Spectrum) : Spectrum :=
  if c.IonTypes ≠ [] then c.filterByIonType s else s

/-- The intensity-cutoff stage of `Config.Apply` with its guard
(`c.IntensityCutoff > 0`). -/
def Config.cutoffStep (c : Config) (s : Spectrum) : Spectrum :=
  if 0 < c.IntensityCutoff then c.filterByIntensity s else s

/-- The top-N stage of `Config.Apply` with its guard (`c.TopN > 0`). -/
def Config.topNStep (c : Config) (s : Spectrum) : Spectrum :=
  if 0 < c.TopN then c.filterTopN s else s

/-- The fragment-adjustment stage of `Config.Apply` with its guard
(`c.OldModMass != 0 && c.NewModMass != 0`). -/
def Config.adjustStep (c : Config) (s : Spectrum) : Spectrum :=
  if c.OldModMass ≠ 0 ∧ c.NewModMass ≠ 0 then c.adjustFragmentMasses s else s

/-- `filter.Config.Apply`: the four guarded stages in source order, then the
unconditional `spec.SortPeaks()`.  Every error branch of the source is `nil`,
so the result is a plain spectrum. -/
def Config.Apply (c : Config) (s : Spectrum) : Spectrum :=
  (c.adjustStep (c.topNStep (c.cutoffStep (c.ionStep s)))).SortPeaks

/-- `filter.RemoveZeroIntensityPeaks` (applied by the driver, outside
`Config.Apply`). -/
def RemoveZeroIntensityPeaks (s : Spectrum) : Spectrum :=
  {s with Peaks := s.Peaks.filter (fun p => decide (0 < p.Intensity))}

/-! Models of two spec sentences, for comparison against the source
(refinement counterexamples); they are deliberately written from the spec's
words, not from the Go code. -/

/-- Modelled from the spec's words for the intensity-cutoff step: "compute
`threshold = cutoff% × max(intensity over all current peaks)`; drop peaks
strictly below threshold" — the maximum taken over the actual peak
intensities of the (non-empty) list, with no `0` floor. -/
def maxIntensitySpecModel (peaks : List Peak) : ℚ :=
  match peaks with
  | [] => 0
  | p :: t => t.foldl (fun m q => max m q.Intensity) p.Intensity

/-- Modelled from the spec's words: the intensity-cutoff step keeps exactly
the peaks at or above `cutoff/100` times the maximum intensity among the
current peaks. -/
def filterByIntensitySpecModel (c : Config) (s : Spectrum) : Spectrum :=
  if s.Peaks = [] then s
  else
    let threshold := c.IntensityCutoff / 100 * maxIntensitySpecModel s.Peaks
    {s with Peaks := s.Peaks.filter (fun p => decide (threshold ≤ p.Intensity))}

/-- Modelled from the spec's words for the fragment-adjustment step: shift
when "ion-type is `b` and position ≥ modification.position; OR ion-type is
anything else treated as a C-terminal-counted ion (`y`-style) and
position ≥ (sequenceLength − modification.position − 1)". -/
def adjustPeakSpecModel (c : Config) (seqLen : Int) (mods : List Modification)
    (p : Peak) : Peak :=
  if p.Annot = [] then p
  else
    match parseIonAnnotation p.Annot with
    | none => p
    | some info =>
      {p with MZ := (mods.foldl
        (fun mz m =>
          if fmt6 m.Mass = fmt6 c.OldModMass then
            if (info.ionType = ("b").data ∧ m.Position ≤ info.position) ∨
               (info.ionType ≠ ("b").data ∧ seqLen - m.Position - 1 ≤ info.position) then
              mz + (c.NewModMass - c.OldModMass) / (info.charge : ℚ)
            else mz
          else mz)
        p.MZ)}

/-- Modelled from the spec's words: `adjustFragmentMasses` with the
any-other-letter-is-`y`-style rule of `adjustPeakSpecModel`. -/
def adjustFragmentMassesSpecModel (c : Config) (s : Spectrum) : Spectrum :=
  if s.Modifications = [] then s
  else
    {s with Peaks :=
      s.Peaks.map (adjustPeakSpecModel c (s.Sequence.length : Int) s.Modifications)}

/-! ## Reader plumbing shared by the MSP and SPTXT readers -/

/-- `fmt.Errorf("line %d: %w", n, e)`. -/
def lineErr (n : Nat) (e : List Char) : List Char :=
  ("line ").data ++ natToChars n ++ (": ").data ++ e

/-- A letter of the character class `[a-zA-Z]`. -/
def isAsciiLetter (c : Char) : Bool :=
  (decide ('a' ≤ c) && decide (c ≤ 'z')) || (decide ('A' ≤ c) && decide (c ≤ 'Z'))

/-! ## pkg/reader/sptxt: the SPTXT reader -/

namespace sptxt

/-- One bracket token of the SPTXT inline-modification pattern
`\[\d+(?:\.\d+)?\]`: consume `[digits]` or `[digits.digits]` from the front,
returning the whole token text and the remainder. -/
def consumeBracket : List Char → Option (List Char × List Char)
  | '[' :: r =>
    if r.takeWhile Char.isDigit = [] then none
    else
      match r.dropWhile Char.isDigit with
      | '.' :: r2 =>
        if r2.takeWhile Char.isDigit = [] then none
        else
          match r2.dropWhile Char.isDigit with
          | ']' :: rest =>
            some ('[' :: r.takeWhile Char.isDigit ++
              '.' :: r2.takeWhile Char.isDigit ++ [']'], rest)
          | _ => none
      | ']' :: rest => some ('[' :: r.takeWhile Char.isDigit ++ [']'], rest)
      | _ => none
  | _ => none

/-- The scan of `Reader.parseInlineModifications` over the raw sequence
literal, carrying the source's `position` counter (the first `Nat` is
recursion fuel, kept above the string length by `parseInlineModifications`).
The regular expression `([a-zA-Z]?)(\[\d+(?:\.\d+)?\])` matches, leftmost
first, each bracket token together with the letter directly before it (if
any); the loop writes the text between matches to the clean sequence, records
an N-terminal modification when the letter is `n` or absent, and otherwise
writes the letter, records a modification at `position`, and increments
`position` — `position` is NOT advanced past the unmodified residues written
between matches. -/
def inlineScanF : Nat → List Char → Nat → Except (List Char) (List Char × List Modification)
  | 0, _, _ => .ok ([], [])
  | _ + 1, [], _ => .ok ([], [])
  | fuel + 1, c :: t, position =>
    if isAsciiLetter c then
      match consumeBracket t with
      | some (tok, rest) =>
        let modStr := goTrimSet tok (("[]").data)
        match goParseFloat modStr with
        | none =>
          .error (("invalid modification mass '").data ++ modStr ++
            ("': strconv.ParseFloat: parsing \"").data ++ modStr ++
            ("\": invalid syntax").data)
        | some mass =>
          if c = 'n' then
            match inlineScanF fuel rest position with
            | .ok (seq, mods) => .ok (seq, ⟨mass, -1, fmt0 mass⟩ :: mods)
            | .error e => .error e
          else
            match inlineScanF fuel rest (position + 1) with
            | .ok (seq, mods) => .ok (c :: seq, ⟨mass, (position : Int), fmt0 mass⟩ :: mods)
            | .error e => .error e
      | none =>
        match inlineScanF fuel t position with
        | .ok (seq, mods) => .ok (c :: seq, mods)
        | .error e => .error e
    else
      match consumeBracket (c :: t) with
      | some (tok, rest) =>
        let modStr := goTrimSet tok (("[]").data)
        match goParseFloat modStr with
        | none =>
          .error (("invalid modification mass '").data ++ modStr ++
            ("': strconv.ParseFloat: parsing \"").data ++ modStr ++
            ("\": invalid syntax").data)
        | some mass =>
          match inlineScanF fuel rest position with
          | .ok (seq, mods) => .ok (seq, ⟨mass, -1, fmt0 mass⟩ :: mods)
          | .error e => .error e
      | none =>
        match inlineScanF fuel t position with
        | .ok (seq, mods) => .ok (c :: seq, mods)
        | .error e => .error e

/-- `sptxt Reader.parseInlineModifications`. -/
def parseInlineModifications (rawSeq : List Char) :
    Except (List Char) (List Char × List Modification) :=
  inlineScanF (rawSeq.length + 1) rawSeq 0

/-- Whether the string holds a bracket token `[digits]` / `[digits.digits]`
anywhere (the condition under which the inline-modification regular
expression finds a match). -/
def hasBracketToken : List Char → Bool
  | [] => false
  | c :: t => (consumeBracket (c :: t)).isSome || hasBracketToken t

/-- `sptxt Reader.parseName`. -/
def parseName (spec : Spectrum) (name : List Char) : Except (List Char) Spectrum :=
  match goSplit name (("/").data) with
  | [seqPart, chargePart] =>
    match goAtoi chargePart with
    | none =>
      .error (("invalid charge in name '").data ++ name ++
        ("': strconv.Atoi: parsing \"").data ++ chargePart ++
        ("\": invalid syntax").data)
    | some charge =>
      match parseInlineModifications seqPart with
      | .error e => .error (("failed to parse modifications from sequence: ").data ++ e)
      | .ok (sequence, mods) =>
        .ok {spec with Charge := charge, Sequence := sequence, Modifications := mods}
  | _ =>
    .error (("invalid name format '").data ++ name ++
      ("', expected 'SEQUENCE/CHARGE'").data)

/-- The existence check and in-place rename in `sptxt Reader.parseMods`: the
first modification with this position gets the proper name; the flag reports
whether one was found. -/
def renameModAt (mods : List Modification) (pos : Int) (modName : List Char) :
    List Modification × Bool :=
  match mods with
  | [] => ([], false)
  | m :: t =>
    if m.Position = pos then ({m with Name := modName} :: t, true)
    else
      match renameModAt t pos modName with
      | (t2, found) => (m :: t2, found)

/-- The triple loop of `sptxt Reader.parseMods` (`for i := 0; i < len(parts);
i += 3`, breaking when fewer than three parts remain). -/
def parseModsLoop (modDB : List Char → Option ℚ) :
    List (List Char) → Spectrum → Spectrum
  | a :: _ :: modName :: rest, sp =>
    let next :=
      match goSplit ((goSplit a ((",").data)).headD []) (("/").data) with
      | [_, p1] =>
        match goAtoi p1 with
        | some pos =>
          match modDB modName with
          | some mass =>
            match renameModAt sp.Modifications pos modName with
            | (mods2, true) => {sp with Modifications := mods2}
            | (_, false) =>
              {sp with Modifications := sp.Modifications ++ [⟨mass, pos, modName⟩]}
          | none => sp
        | none => sp
      | _ => sp
    parseModsLoop modDB rest next
  | _, sp => sp

/-- `sptxt Reader.parseMods` (over parts split by `/`; since each part then
holds no `/`, the inner two-way split never succeeds and the loop is a no-op
on every input — modelled faithfully). -/
def parseMods (modDB : List Char → Option ℚ) (spec : Spectrum)
    (modsStr : List Char) : Spectrum :=
  parseModsLoop modDB (goSplit modsStr (("/").data)) spec

/-- `sptxt Reader.parseComment`. -/
def parseComment (modDB : List Char → Option ℚ) (spec : Spectrum)
    (comment : List Char) : Spectrum :=
  (goFields comment).foldl
    (fun sp field =>
      match goSplitN2 field (("=").data) with
      | [key, value] =>
        if key = ("Parent").data then
          match goParseFloat value with
          | some mz => {sp with PrecursorMZ := mz}
          | none => sp
        else if key = ("CollisionEnergy").data then
          match goParseFloat value with
          | some ce => {sp with CollisionEnergy := some ce}
          | none => sp
        else if key = ("RetentionTime").data then
          match (goSplit value ((",").data)).headD [] with
          | rt0 =>
            match goParseFloat rt0 with
            | some rt => {sp with RetentionTime := some rt}
            | none => sp
        else if key = ("Mods").data then parseMods modDB sp value
        else sp
      | _ => sp)
    spec

/-- `sptxt Reader.parsePeak`. -/
def parsePeak (line : List Char) : Except (List Char) Peak :=
  match goFields line with
  | f0 :: f1 :: rest =>
    match goParseFloat f0 with
    | none =>
      .error (("invalid m/z value: strconv.ParseFloat: parsing \"").data ++ f0 ++
        ("\": invalid syntax").data)
    | some mz =>
      match goParseFloat f1 with
      | none =>
        .error (("invalid intensity value: strconv.ParseFloat: parsing \"").data ++
          f1 ++ ("\": invalid syntax").data)
      | some intensity =>
        match rest with
        | f2 :: _ =>
          let i := goIndex (("/").data) f2
          let ann := if 0 < i then f2.take i.toNat else f2
          .ok ⟨mz, intensity, ann, 0⟩
        | [] => .ok ⟨mz, intensity, [], 0⟩
  | _ => .error (("invalid peak format, expected at least 2 fields").data)

/-- `sptxt Reader.readSpectrum`'s scanner loop, over the remaining input
lines.  Returns the outcome (`ok (some spec)` a record, `ok none` the EOF
signal, `error e` a fatal parse error), the unread lines, and the new line
number. -/
def readSpectrumAux (modDB : List Char → Option ℚ) :
    List (List Char) → Nat → Spectrum → Int → Bool → Nat →
      Except (List Char) (Option Spectrum) × List (List Char) × Nat
  | [], n, spec, _, _, _ =>
    (if spec.Sequence ≠ [] then .ok (some spec) else .ok none, [], n)
  | l :: rest, n, spec, numPeaks, inPeaks, peaksRead =>
    let n1 := n + 1
    let line := trimSpace l
    if line = [] ∨ (("###").data).isPrefixOf line then
      readSpectrumAux modDB rest n1 spec numPeaks inPeaks peaksRead
    else if inPeaks ∧ numPeaks ≤ (peaksRead : Int) then
      (.ok (some spec), rest, n1)
    else if !inPeaks then
      if (("Name: ").data).isPrefixOf line then
        match parseName spec (goTrimPrefix line (("Name: ").data)) with
        | .error e => (.error (lineErr n1 e), rest, n1)
        | .ok spec2 => readSpectrumAux modDB rest n1 spec2 numPeaks inPeaks peaksRead
      else if (("MW: ").data).isPrefixOf line then
        readSpectrumAux modDB rest n1 spec numPeaks inPeaks peaksRead
      else if (("PrecursorMZ: ").data).isPrefixOf line then
        let spec2 :=
          match goParseFloat (goTrimPrefix line (("PrecursorMZ: ").data)) with
          | some mz => {spec with PrecursorMZ := mz}
          | none => spec
        readSpectrumAux modDB rest n1 spec2 numPeaks inPeaks peaksRead
      else if (("Comment: ").data).isPrefixOf line then
        readSpectrumAux modDB rest n1
          (parseComment modDB spec (goTrimPrefix line (("Comment: ").data)))
          numPeaks inPeaks peaksRead
      else if (("NumPeaks: ").data).isPrefixOf line then
        match goAtoi (goTrimPrefix line (("NumPeaks: ").data)) with
        | none =>
          (.error (lineErr n1 (("invalid num peaks: strconv.Atoi: parsing \"").data ++
            goTrimPrefix line (("NumPeaks: ").data) ++ ("\": invalid syntax").data)),
           rest, n1)
        | some np => readSpectrumAux modDB rest n1 spec np true peaksRead
      else
        readSpectrumAux modDB rest n1 spec numPeaks inPeaks peaksRead
    else
      match parsePeak line with
      | .error e => (.error (lineErr n1 e), rest, n1)
      | .ok peak =>
        let spec2 := {spec with Peaks := spec.Peaks ++ [peak]}
        let pr := peaksRead + 1
        if numPeaks ≤ (pr : Int) then (.ok (some spec2), rest, n1)
        else readSpectrumAux modDB rest n1 spec2 numPeaks inPeaks pr

/-- `sptxt.Reader`: the scanner's remaining lines, the modification database,
the line counter, the current spectrum and the stored error. -/
structure Reader where
  modDB : List Char → Option ℚ
  lines : List (List Char)
  lineNum : Nat
  currentSpec : Option Spectrum
  err : Option (List Char)

/-- The fresh per-record accumulator of `sptxt Reader.readSpectrum`. -/
def initSpec : Spectrum := {emptySpectrum with SourceFormat := ("sptxt").data}

/-- `sptxt Reader.Next` (with the updated reader state): `readSpectrum`,
storing a non-EOF error in `r.err`. -/
def next (r : Reader) : Bool × Reader :=
  match readSpectrumAux r.modDB r.lines r.lineNum initSpec 0 false 0 with
  | (.error e, rest, n) =>
    (false, {r with lines := rest, lineNum := n, currentSpec := none, err := some e})
  | (.ok none, rest, n) =>
    (false, {r with lines := rest, lineNum := n, currentSpec := none})
  | (.ok (some sp), rest, n) =>
    (true, {r with lines := rest, lineNum := n, currentSpec := some sp})

/-- The driver loop over a reader (`for reader.Next() { ... }`): the records
produced before the first `false`. -/
def readAllAux : Nat → Reader → List Spectrum
  | 0, _ => []
  | fuel + 1, r =>
    match next r with
    | (false, _) => []
    | (true, r2) =>
      (match r2.currentSpec with
       | some sp => [sp]
       | none => []) ++ readAllAux fuel r2

/-- All records the driver loop obtains from a reader. -/
def readAll (r : Reader) : List Spectrum := readAllAux (r.lines.length + 1) r

end sptxt

/-! ## pkg/reader/msp: the MSP (Prosit) reader -/

namespace msp

/-- `msp Reader.parseName`: `SEQUENCE/CHARGE`, no inline modifications. -/
def parseName (spec : Spectrum) (name : List Char) : Except (List Char) Spectrum :=
  match goSplit name (("/").data) with
  | [seqPart, chargePart] =>
    match goAtoi chargePart with
    | none =>
      .error (("invalid charge in name '").data ++ name ++
        ("': strconv.Atoi: parsing \"").data ++ chargePart ++
        ("\": invalid syntax").data)
    | some charge => .ok {spec with Sequence := seqPart, Charge := charge}
  | _ =>
    .error (("invalid name format '").data ++ name ++
      ("', expected 'SEQUENCE/CHARGE'").data)

/-- `msp Reader.parseMods`. -/
def parseMods (modDB : List Char → Option ℚ) (spec : Spectrum)
    (modsStr : List Char) : Spectrum :=
  let parts := goSplit modsStr ((",").data)
  if 3 ≤ parts.length then
    let modName := parts.getD 2 []
    let posStr := parts.getD 0 []
    match goSplit posStr (("/").data) with
    | [_, p1] =>
      match goAtoi p1 with
      | some pos =>
        match modDB modName with
        | some mass =>
          {spec with Modifications := spec.Modifications ++ [⟨mass, pos, modName⟩]}
        | none => spec
      | none => spec
    | _ => spec
  else spec

/-- `msp Reader.parseModString`: `SEQUENCE//Name@Pos;Name@Pos/Charge`. -/
def parseModString (modDB : List Char → Option ℚ) (spec : Spectrum)
    (modString : List Char) : Spectrum :=
  match goSplit modString (("//").data) with
  | _ :: modPart0 :: _ =>
    let modPart := (goSplit modPart0 (("/").data)).headD []
    (goSplit modPart ((";").data)).foldl
      (fun sp modSpec =>
        if modSpec = [] then sp
        else
          match goSplit (trimSpace modSpec) (("@").data) with
          | [modName, posStr0] =>
            match goAtoi (goTrimLeftSet posStr0 (("ACDEFGHIKLMNPQRSTVWY").data)) with
            | some pos =>
              match modDB modName with
              | some mass =>
                {sp with Modifications := sp.Modifications ++ [⟨mass, pos, modName⟩]}
              | none => sp
            | none => sp
          | _ => sp)
      spec
  | _ => spec

/-- `msp Reader.parseComment`. -/
def parseComment (modDB : List Char → Option ℚ) (spec : Spectrum)
    (comment : List Char) : Spectrum :=
  (goFields comment).foldl
    (fun sp field =>
      match goSplitN2 field (("=").data) with
      | [key, value] =>
        if key = ("Parent").data then
          match goParseFloat value with
          | some mz => {sp with PrecursorMZ := mz}
          | none => sp
        else if key = ("Collision_energy").data ∨ key = ("CollisionEnergy").data then
          match goParseFloat value with
          | some ce => {sp with CollisionEnergy := some ce}
          | none => sp
        else if key = ("iRT").data ∨ key = ("RetentionTime").data then
          match goParseFloat value with
          | some rt => {sp with RetentionTime := some rt}
          | none => sp
        else if key = ("Mods").data then parseMods modDB sp value
        else if key = ("ModString").data then parseModString modDB sp value
        else sp
      | _ => sp)
    spec

/-- `msp Reader.parsePeak` (`mz intensity "annotation"`; quotes stripped,
then everything from the first `/` on dropped when it is not at index 0). -/
def parsePeak (line : List Char) : Except (List Char) Peak :=
  match goFields line with
  | f0 :: f1 :: rest =>
    match goParseFloat f0 with
    | none =>
      .error (("invalid m/z value: strconv.ParseFloat: parsing \"").data ++ f0 ++
        ("\": invalid syntax").data)
    | some mz =>
      match goParseFloat f1 with
      | none =>
        .error (("invalid intensity value: strconv.ParseFloat: parsing \"").data ++
          f1 ++ ("\": invalid syntax").data)
      | some intensity =>
        match rest with
        | f2 :: _ =>
          let ann0 := goTrimSet f2 (("\"").data)
          let i := goIndex (("/").data) ann0
          let ann := if 0 < i then ann0.take i.toNat else ann0
          .ok ⟨mz, intensity, ann, 0⟩
        | [] => .ok ⟨mz, intensity, [], 0⟩
  | _ => .error (("invalid peak format, expected at least 2 fields").data)

/-- `msp Reader.readSpectrum`'s scanner loop (empty lines are skipped only
while the record's sequence is still unset). -/
def readSpectrumAux (modDB : List Char → Option ℚ) :
    List (List Char) → Nat → Spectrum → Int → Bool → Nat →
      Except (List Char) (Option Spectrum) × List (List Char) × Nat
  | [], n, spec, _, _, _ =>
    (if spec.Sequence ≠ [] then .ok (some spec) else .ok none, [], n)
  | l :: rest, n, spec, numPeaks, inPeaks, peaksRead =>
    let n1 := n + 1
    let line := trimSpace l
    if line = [] ∧ spec.Sequence = [] then
      readSpectrumAux modDB rest n1 spec numPeaks inPeaks peaksRead
    else if inPeaks ∧ numPeaks ≤ (peaksRead : Int) then
      (.ok (some spec), rest, n1)
    else if !inPeaks then
      if (("Name: ").data).isPrefixOf line then
        match parseName spec (goTrimPrefix line (("Name: ").data)) with
        | .error e => (.error (lineErr n1 e), rest, n1)
        | .ok spec2 => readSpectrumAux modDB rest n1 spec2 numPeaks inPeaks peaksRead
      else if (("MW: ").data).isPrefixOf line then
        readSpectrumAux modDB rest n1 spec numPeaks inPeaks peaksRead
      else if (("Comment: ").data).isPrefixOf line then
        readSpectrumAux modDB rest n1
          (parseComment modDB spec (goTrimPrefix line (("Comment: ").data)))
          numPeaks inPeaks peaksRead
      else if (("Num peaks: ").data).isPrefixOf line then
        match goAtoi (goTrimPrefix line (("Num peaks: ").data)) with
        | none =>
          (.error (lineErr n1 (("invalid num peaks: strconv.Atoi: parsing \"").data ++
            goTrimPrefix line (("Num peaks: ").data) ++ ("\": invalid syntax").data)),
           rest, n1)
        | some np => readSpectrumAux modDB rest n1 spec np true peaksRead
      else
        readSpectrumAux modDB rest n1 spec numPeaks inPeaks peaksRead
    else
      match parsePeak line with
      | .error e => (.error (lineErr n1 e), rest, n1)
      | .ok peak =>
        let spec2 := {spec with Peaks := spec.Peaks ++ [peak]}
        let pr := peaksRead + 1
        if numPeaks ≤ (pr : Int) then (.ok (some spec2), rest, n1)
        else readSpectrumAux modDB rest n1 spec2 numPeaks inPeaks pr

/-- `msp.Reader`. -/
structure Reader where
  modDB : List Char → Option ℚ
  lines : List (List Char)
  lineNum : Nat
  currentSpec : Option Spectrum
  err : Option (List Char)

/-- The fresh per-record accumulator of `msp Reader.readSpectrum`. -/
def initSpec : Spectrum := {emptySpectrum with SourceFormat := ("msp").data}

/-- `msp Reader.Next` (with the updated reader state). -/
def next (r : Reader) : Bool × Reader :=
  match readSpectrumAux r.modDB r.lines r.lineNum initSpec 0 false 0 with
  | (.error e, rest, n) =>
    (false, {r with lines := rest, lineNum := n, currentSpec := none, err := some e})
  | (.ok none, rest, n) =>
    (false, {r with lines := rest, lineNum := n, currentSpec := none})
  | (.ok (some sp), rest, n) =>
    (true, {r with lines := rest, lineNum := n, currentSpec := some sp})

/-- The driver loop over a reader: the records produced before the first
`false`. -/
def readAllAux : Nat → Reader → List Spectrum
  | 0, _ => []
  | fuel + 1, r =>
    match next r with
    | (false, _) => []
    | (true, r2) =>
      (match r2.currentSpec with
       | some sp => [sp]
       | none => []) ++ readAllAux fuel r2

/-- All records the driver loop obtains from a reader. -/
def readAll (r : Reader) : List Spectrum := readAllAux (r.lines.length + 1) r

end msp

/-! ## Concrete inputs used by the scenario parts, witnesses and
counterexamples below -/

/-- Scenario 4's spectrum: valid except for peaks 200 then 100. -/
def scenario4Spectrum : Spectrum :=
  {emptySpectrum with
    Sequence := ("PEPTIDE").data
    Charge := 2
    PrecursorMZ := 400.5
    FragmentationMode := ("HCD").data
    MassAnalyzer := ("FT").data
    Peaks := [⟨200, 2000, [], 0⟩, ⟨100, 1000, [], 0⟩]}

/-- A spectrum violating two rules at once (non-positive charge and unsorted
peaks), to exhibit the aggregate error message. -/
def doubleViolationSpectrum : Spectrum :=
  {emptySpectrum with
    Sequence := ("PEPTIDE").data
    Charge := 0
    PrecursorMZ := 400.5
    FragmentationMode := ("HCD").data
    MassAnalyzer := ("FT").data
    Peaks := [⟨200, 2000, [], 0⟩, ⟨100, 1000, [], 0⟩]}

/-- Scenario 5's configuration: old mass 229.16, new mass 304.21. -/
def c2sConfig : Config := ⟨0, 0, [], 0, 229.16, 304.21⟩

/-- Scenario 5's spectrum: one modification at position 0 with mass 229.16,
one peak annotated `b2`. -/
def c2sSpec : Spectrum :=
  {emptySpectrum with
    Sequence := ("PEPTIDE").data
    Modifications := [⟨229.16, 0, []⟩]
    Peaks := [⟨100, 50, ("b2").data, 0⟩]}

/-- A spectrum whose only peak carries an `a`-type annotation (the letter is
neither `b` nor `y`); the modification and masses match Scenario 5's. -/
def c2xSpec : Spectrum :=
  {emptySpectrum with
    Sequence := ("AA").data
    Modifications := [⟨229.16, 0, []⟩]
    Peaks := [⟨100, 50, ("a5").data, 0⟩]}

/-- A configuration with only the fragment-adjustment step active. -/
def c3xConfig : Config := ⟨0, 0, [], 0, 229.16, 304.21⟩

/-- A spectrum the fragment-adjustment step fires on (one matching
modification, one `b2` peak). -/
def c3xSpec : Spectrum :=
  {emptySpectrum with
    Sequence := ("PEPTIDE").data
    Modifications := [⟨229.16, 0, []⟩]
    Peaks := [⟨100, 50, ("b2").data, 0⟩]}

/-- A configuration with ion filter, cutoff and top-N active but fragment
adjustment disabled. -/
def c3wConfig : Config := ⟨1, 50, [("y").data], 0, 0, 0⟩

/-- A spectrum with several annotated peaks for the idempotence witness. -/
def c3wSpec : Spectrum :=
  {emptySpectrum with
    Sequence := ("AB").data
    Peaks := [⟨100, 10, ("y1").data, 0⟩, ⟨90, 80, ("y2").data, 0⟩,
      ⟨50, 5, ("b1").data, 0⟩]}

/-- A cutoff-only configuration (cutoff 50%). -/
def c7wConfig : Config := ⟨0, 50, [], 0, 0, 0⟩

/-- A two-peak spectrum for the cutoff witness. -/
def c7wSpec : Spectrum :=
  {emptySpectrum with Peaks := [⟨100, 10, [], 0⟩, ⟨200, 1, [], 0⟩]}

/-- A cutoff-100% configuration for the cutoff counterexample. -/
def c7xConfig : Config := ⟨0, 100, [], 0, 0, 0⟩

/-- A single peak of negative intensity: the source's maximum-intensity
accumulator (floored at 0) and the spec's "maximum intensity among the
current peaks" differ here. -/
def c7xSpec : Spectrum :=
  {emptySpectrum with Peaks := [⟨100, -4, [], 0⟩]}

/-! ## Helper lemmas -/

theorem if_singleton_eq_nil {α : Type} {P : Prop} [Decidable P] {x : α} :
    (if P then [x] else ([] : List α)) = [] ↔ ¬P := by
  split <;> simp_all

theorem validatePeakErrs_eq_nil (i : Nat) (l : List Peak) :
    validatePeakErrs i l = [] ↔ ∀ p ∈ l, 0 < p.MZ ∧ 0 ≤ p.Intensity := by
  induction l generalizing i with
  | nil => simp [validatePeakErrs]
  | cons p t ih =>
    simp only [validatePeakErrs, List.append_eq_nil, if_singleton_eq_nil, not_le,
      not_lt, ih, List.mem_cons]
    constructor
    · rintro ⟨⟨h1, h2⟩, h3⟩ q hq
      rcases hq with rfl | hq
      · exact ⟨h1, h2⟩
      · exact h3 q hq
    · intro h
      exact ⟨⟨(h p (Or.inl rfl)).1, (h p (Or.inl rfl)).2⟩,
        fun q hq => h q (Or.inr hq)⟩

theorem peaksSortedList_of_sorted {l : List Peak} (h : List.Sorted peakLE l) :
    peaksSortedList l = true := by
  induction l with
  | nil => rfl
  | cons a t ih =>
    cases t with
    | nil => rfl
    | cons b u =>
      rw [List.sorted_cons] at h
      obtain ⟨ha, ht⟩ := h
      have hab : peakLE a b := ha b (List.mem_cons_self b u)
      simp only [peaksSortedList, ih ht, Bool.and_true, Bool.not_eq_true']
      exact decide_eq_false (not_lt.mpr hab)

/-! ## C5, C6, C7, C4, C1, C10 -/

/-- C5: `CalculatePeptideMass(sequence, charge, modifications)` equals
`(CalculateNeutralMass(sequence, modifications) + charge·ProtonMass) / charge`
for every sequence, modification list and charge ≥ 1; and for `"AAA"`,
charge 1, no modifications the result is within 0.1 of 232.13. -/
theorem c5_CalculatePeptideMass :
    (∀ (sequence : List Char) (modifications : List Modification) (charge : Int),
        1 ≤ charge →
        CalculatePeptideMass sequence charge modifications =
          (CalculateNeutralMass sequence modifications + (charge : ℚ) * ProtonMass) /
            (charge : ℚ)) ∧
    |CalculatePeptideMass (("AAA").data) 1 [] - 232.13| < 1 / 10 := by
  refine ⟨fun seq mods charge _ => rfl, ?_⟩
  decide

/-- Witness for C5 at a concrete input, the hypothesis `1 ≤ charge`
discharged at charge 1. -/
theorem c5_witness :
    1 ≤ (1 : Int) ∧
      CalculatePeptideMass (("AAA").data) 1 [] =
        (CalculateNeutralMass (("AAA").data) [] + (1 : ℚ) * ProtonMass) / (1 : ℚ) :=
  ⟨by decide, c5_CalculatePeptideMass.1 (("AAA").data) [] 1 (by decide)⟩

/-- C6: after `Config.Apply` the peak list is non-decreasing by m/z — the
source's own `ArePeaksSorted` predicate holds of the result for every
configuration and every spectrum, whichever stages fired. -/
theorem c6_apply_peaks_sorted (c : Config) (s : Spectrum) :
    (c.Apply s).ArePeaksSorted = true :=
  peaksSortedList_of_sorted
    (List.sorted_insertionSort peakLE
      (c.adjustStep (c.topNStep (c.cutoffStep (c.ionStep s)))).Peaks)

/-- C7 (amended): with a positive cutoff and a non-empty peak list, the
intensity-cutoff step keeps exactly the peaks at or above
`cutoff/100 × max(0, intensities)` — the source's accumulator starts at 0 —
preserving order; on an empty peak list it changes nothing; and with
`IntensityCutoff = 0` the stage is skipped by `Apply`'s guard. -/
theorem c7_filterByIntensity_amended (c : Config) (s : Spectrum) :
    (0 < c.IntensityCutoff → s.Peaks ≠ [] →
      (c.filterByIntensity s).Peaks =
        s.Peaks.filter
          (fun p => decide (c.IntensityCutoff / 100 * maxIntensityAcc s.Peaks ≤
            p.Intensity))) ∧
    (s.Peaks = [] → c.filterByIntensity s = s) ∧
    (c.IntensityCutoff = 0 → c.cutoffStep s = s) := by
  refine ⟨fun _ hne => ?_, fun he => ?_, fun h0 => ?_⟩
  · simp [Config.filterByIntensity, hne]
  · simp [Config.filterByIntensity, he]
  · simp [Config.cutoffStep, h0]

/-- Witness for C7 at a concrete two-peak spectrum with cutoff 50%. -/
theorem c7_witness :
    0 < c7wConfig.IntensityCutoff ∧ c7wSpec.Peaks ≠ [] ∧
      (c7wConfig.filterByIntensity c7wSpec).Peaks =
        c7wSpec.Peaks.filter
          (fun p => decide (c7wConfig.IntensityCutoff / 100 *
            maxIntensityAcc c7wSpec.Peaks ≤ p.Intensity)) :=
  ⟨by decide, by decide,
    (c7_filterByIntensity_amended c7wConfig c7wSpec).1 (by decide) (by decide)⟩

/-- C7's counterexample to the claim as stated: with cutoff 100% and a single
peak of intensity −4, the source drops the peak (its maximum accumulator
starts at 0) while the spec's "maximum intensity among the current peaks"
(−4) would keep it. -/
theorem c7_counterexample :
    c7xConfig.filterByIntensity c7xSpec ≠ filterByIntensitySpecModel c7xConfig c7xSpec := by
  decide

/-- C10's engine: the inline-modification scan is the identity (with no
modifications and no error) on strings holding no bracket token, for any
fuel above the string length. -/
theorem inlineScanF_id (s : List Char) :
    ∀ (fuel pos : Nat), s.length < fuel → sptxt.hasBracketToken s = false →
      sptxt.inlineScanF fuel s pos = .ok (s, []) := by
  induction s with
  | nil =>
    intro fuel pos hf _
    match fuel, hf with
    | g + 1, _ => rfl
  | cons c t ih =>
    intro fuel pos hf h
    simp only [sptxt.hasBracketToken, Bool.or_eq_false_iff] at h
    obtain ⟨h1, h2⟩ := h
    have hcc : sptxt.consumeBracket (c :: t) = none :=
      Option.not_isSome_iff_eq_none.mp (by simp [h1])
    have hct : sptxt.consumeBracket t = none := by
      cases t with
      | nil => rfl
      | cons d u =>
        simp only [sptxt.hasBracketToken, Bool.or_eq_false_iff] at h2
        exact Option.not_isSome_iff_eq_none.mp (by simp [h2.1])
    match fuel, hf with
    | g + 1, hf =>
      have hrec : sptxt.inlineScanF g t pos = .ok (t, []) :=
        ih g pos (by simpa using Nat.lt_of_succ_lt_succ hf) h2
      by_cases hl : isAsciiLetter c
      · simp [sptxt.inlineScanF, hl, hct, hrec]
      · simp [sptxt.inlineScanF, hl, hcc, hrec]

/-- C10: on every input string holding no `[number]` bracket token,
`parseInlineModifications` returns the input unchanged as the clean sequence,
an empty modification list and no error. -/
theorem c10_parseInlineModifications_id (s : List Char)
    (h : sptxt.hasBracketToken s = false) :
    sptxt.parseInlineModifications s = .ok (s, []) :=
  inlineScanF_id s (s.length + 1) 0 (Nat.lt_succ_self _) h

/-- Witness for C10 at the bracket-free literal `PEPTIDE`. -/
theorem c10_witness :
    sptxt.hasBracketToken (("PEPTIDE").data) = false ∧
      sptxt.parseInlineModifications (("PEPTIDE").data) =
        .ok (("PEPTIDE").data, []) :=
  ⟨by decide, c10_parseInlineModifications_id (("PEPTIDE").data) (by decide)⟩

/-- C1 (documenting the code bug): on the SPTXT name line
`n[305]AC[160]DE/2`, `parseName` yields normalized sequence `ACDE`, charge 2,
an N-terminal modification of mass 305 at position −1 — and the `C[160]`
modification at position **0**, not 1: the source increments its offset only
when it emits a bracketed residue and never advances it past the unmodified
residues written between matches (here the `A`). -/
theorem c1_parseName_eval :
    sptxt.parseName {emptySpectrum with SourceFormat := ("sptxt").data}
        (("n[305]AC[160]DE/2").data) =
      .ok {emptySpectrum with
        SourceFormat := ("sptxt").data
        Charge := 2
        Sequence := ("ACDE").data
        Modifications := [⟨305, -1, ("305").data⟩, ⟨160, 0, ("160").data⟩]} := by
  rfl

/-- C4: `Validate` returns `nil` exactly when the sequence, fragmentation
mode and mass analyzer are non-empty, charge and precursor m/z are positive,
the peak list is non-empty with positive m/z and non-negative intensity
peaks, and the peaks are non-decreasing by m/z (the NaN/Inf checks of the
source have no rational representative); when it fails, the single error
lists every violated rule: Scenario 4's unsorted spectrum reports the
unsorted-peaks violation, and a doubly-violating spectrum reports both its
violations joined in one message. -/
theorem c4_Validate_characterization :
    (∀ s : Spectrum,
        s.Validate = none ↔
          (s.Sequence ≠ [] ∧ 0 < s.Charge ∧ 0 < s.PrecursorMZ ∧ s.Peaks ≠ [] ∧
           s.FragmentationMode ≠ [] ∧ s.MassAnalyzer ≠ [] ∧
           (∀ p ∈ s.Peaks, 0 < p.MZ ∧ 0 ≤ p.Intensity) ∧
           s.ArePeaksSorted = true)) ∧
    scenario4Spectrum.Validate =
      some ⟨("Spectrum").data, ("peaks must be sorted by m/z").data⟩ ∧
    doubleViolationSpectrum.Validate =
      some ⟨("Spectrum").data,
        ("charge must be positive; peaks must be sorted by m/z").data⟩ := by
  refine ⟨fun s => ?_, by decide, by decide⟩
  unfold Spectrum.Validate
  constructor
  · intro h
    have herrs : s.validateErrs = [] := by
      by_cases he : s.validateErrs = []
      · exact he
      · simp [he] at h
    unfold Spectrum.validateErrs at herrs
    simp only [List.append_eq_nil, if_singleton_eq_nil, not_le,
      validatePeakErrs_eq_nil] at herrs
    obtain ⟨⟨⟨⟨⟨⟨⟨h1, h2⟩, h3⟩, h4⟩, h5⟩, h6⟩, h7⟩, h8⟩ := herrs
    refine ⟨h1, h2, h3, h4, h5, h6, h7, ?_⟩
    by_cases hb : s.ArePeaksSorted
    · exact hb
    · simp [hb] at h8
  · rintro ⟨h1, h2, h3, h4, h5, h6, h7, h8⟩
    have herrs : s.validateErrs = [] := by
      unfold Spectrum.validateErrs
      simp only [List.append_eq_nil, if_singleton_eq_nil, not_le,
        validatePeakErrs_eq_nil, h8, if_true]
      exact ⟨⟨⟨⟨⟨⟨⟨h1, h2⟩, h3⟩, h4⟩, h5⟩, h6⟩, h7⟩, trivial⟩
    simp [herrs]

/-! ## C2: fragment-mass adjustment -/

theorem map_eq_self_of {α : Type} {f : α → α} {l : List α}
    (h : ∀ x ∈ l, f x = x) : l.map f = l := by
  induction l with
  | nil => rfl
  | cons a t ih =>
    simp only [List.map_cons, h a (List.mem_cons_self a t),
      ih (fun x hx => h x (List.mem_cons_of_mem _ hx))]

theorem map_congr_of {α β : Type} {f g : α → β} {l : List α}
    (h : ∀ x ∈ l, f x = g x) : l.map f = l.map g := by
  induction l with
  | nil => rfl
  | cons a t ih =>
    simp only [List.map_cons, h a (List.mem_cons_self a t),
      ih (fun x hx => h x (List.mem_cons_of_mem _ hx))]

/-- The inner modification loop of `adjustFragmentMasses`, in closed form:
the accumulated m/z is the start plus (number of modifications passing both
tests) times the per-modification shift. -/
theorem foldl_adjust_count (d : ℚ) (c1 c2 : Modification → Prop)
    [DecidablePred c1] [DecidablePred c2] (M : List Modification) :
    ∀ mz : ℚ,
      M.foldl (fun acc m => if c1 m then if c2 m then acc + d else acc else acc) mz =
        mz + ((M.filter (fun m => decide (c1 m) && decide (c2 m))).length : ℚ) * d := by
  induction M with
  | nil => intro mz; simp
  | cons m t ih =>
    intro mz
    by_cases h1 : c1 m
    · by_cases h2 : c2 m
      · simp only [List.foldl_cons, if_pos h1, if_pos h2, ih, List.filter_cons,
          decide_eq_true h1, decide_eq_true h2, Bool.and_self, if_true,
          List.length_cons]
        push_cast
        ring
      · simp only [List.foldl_cons, if_pos h1, if_neg h2, ih, List.filter_cons,
          decide_eq_true h1, decide_eq_false h2, Bool.true_and]
        simp
    · simp only [List.foldl_cons, if_neg h1, ih, List.filter_cons,
        decide_eq_false h1, Bool.false_and]
      simp

/-- `adjustPeak` in closed form. -/
theorem adjustPeak_closed (c : Config) (seqLen : Int) (M : List Modification)
    (p : Peak) :
    adjustPeak c seqLen M p =
      (match parseIonAnnotation p.Annot with
       | none => p
       | some info =>
         {p with MZ := p.MZ +
           ((M.filter (fun m =>
             decide (fmt6 m.Mass = fmt6 c.OldModMass) &&
               decide ((info.ionType = ("b").data ∧ m.Position ≤ info.position) ∨
                 (info.ionType = ("y").data ∧
                   seqLen - m.Position - 1 ≤ info.position)))).length : ℚ) *
             ((c.NewModMass - c.OldModMass) / (info.charge : ℚ))}) := by
  unfold adjustPeak
  by_cases hann : p.Annot = []
  · have hpa : parseIonAnnotation p.Annot = none := by rw [hann]; rfl
    rw [if_pos hann, hpa]
  · rw [if_neg hann]
    match hpa : parseIonAnnotation p.Annot with
    | none => rfl
    | some info =>
      exact congrArg (fun x => {p with MZ := x})
        (foldl_adjust_count ((c.NewModMass - c.OldModMass) / (info.charge : ℚ))
          (fun m => fmt6 m.Mass = fmt6 c.OldModMass)
          (fun m => (info.ionType = ("b").data ∧ m.Position ≤ info.position) ∨
            (info.ionType = ("y").data ∧ seqLen - m.Position - 1 ≤ info.position))
          M p.MZ)

/-- C2 (amended): in the fragment-adjustment step each peak whose annotation
parses as `<lowercase letter><position>[^<charge>]` (charge defaulting to 1)
has its m/z increased by `(NewModMass − OldModMass)/charge` once per
modification whose mass equals `OldModMass` at 6-decimal precision and which
satisfies the positional test — `b` ions when `position ≥ mod.Position`, and
ions of type exactly `y` when `position ≥ len(sequence) − mod.Position − 1`;
letters other than `b` and `y` are never shifted, and unparseable annotations
are left untouched.  Scenario 5 (old 229.16, new 304.21, one modification at
position 0, one `b2` peak) shifts by exactly `(304.21 − 229.16)/1`. -/
theorem c2_adjustFragmentMasses_amended :
    (∀ (c : Config) (s : Spectrum),
        (c.adjustFragmentMasses s).Peaks = s.Peaks.map (fun p =>
          match parseIonAnnotation p.Annot with
          | none => p
          | some info =>
            {p with MZ := p.MZ +
              ((s.Modifications.filter (fun m =>
                decide (fmt6 m.Mass = fmt6 c.OldModMass) &&
                  decide ((info.ionType = ("b").data ∧ m.Position ≤ info.position) ∨
                    (info.ionType = ("y").data ∧
                      (s.Sequence.length : Int) - m.Position - 1 ≤ info.position)))).length : ℚ) *
                ((c.NewModMass - c.OldModMass) / (info.charge : ℚ))})) ∧
    (c2sConfig.adjustFragmentMasses c2sSpec).Peaks.map Peak.MZ =
      [100 + (304.21 - 229.16) / 1] := by
  constructor
  · intro c s
    unfold Config.adjustFragmentMasses
    by_cases hm : s.Modifications = []
    · rw [if_pos hm]
      symm
      apply map_eq_self_of
      intro p _
      rw [hm]
      cases hpa : parseIonAnnotation p.Annot with
      | none => rfl
      | some info => simp
    · rw [if_neg hm]
      exact map_congr_of (fun p _ => adjustPeak_closed c (s.Sequence.length : Int)
        s.Modifications p)
  · decide

/-- C2's counterexample to the claim as stated: an `a5` annotation (a
lowercase letter other than `b`) is parsed but never shifted by the code,
while the spec's "any other letter is treated `y`-style" rule would shift
it — the code and the spec-worded model disagree on this input. -/
theorem c2_counterexample :
    c2sConfig.adjustFragmentMasses c2xSpec ≠
      adjustFragmentMassesSpecModel c2sConfig c2xSpec := by
  decide

/-! ## C3: idempotence of the filter pipeline -/

theorem maxIntensityAcc_eq_foldl_max (l : List Peak) :
    maxIntensityAcc l = l.foldl (fun m p => max m p.Intensity) 0 := by
  unfold maxIntensityAcc
  congr 1
  funext m p
  by_cases h : m < p.Intensity
  · rw [if_pos h, max_eq_right h.le]
  · rw [if_neg h, max_eq_left (not_lt.mp h)]

theorem foldl_max_init_le (l : List Peak) :
    ∀ a : ℚ, a ≤ l.foldl (fun m p => max m p.Intensity) 0 → True := fun _ _ => trivial

theorem le_foldl_max (l : List Peak) :
    ∀ a : ℚ, a ≤ l.foldl (fun m p => max m p.Intensity) a := by
  induction l with
  | nil => intro a; simp
  | cons p t ih =>
    intro a
    exact le_trans (le_max_left a p.Intensity) (ih (max a p.Intensity))

theorem mem_le_foldl_max {l : List Peak} {p : Peak} (hp : p ∈ l) :
    ∀ a : ℚ, p.Intensity ≤ l.foldl (fun m q => max m q.Intensity) a := by
  induction l with
  | nil => cases hp
  | cons q t ih =>
    intro a
    rcases List.mem_cons.mp hp with rfl | hp2
    · exact le_trans (le_max_right a p.Intensity) (le_foldl_max t _)
    · exact ih hp2 _

theorem foldl_max_le {l : List Peak} {b : ℚ} (hb : ∀ p ∈ l, p.Intensity ≤ b) :
    ∀ a : ℚ, a ≤ b → l.foldl (fun m q => max m q.Intensity) a ≤ b := by
  induction l with
  | nil => intro a ha; simpa using ha
  | cons q t ih =>
    intro a ha
    exact ih (fun p hp => hb p (List.mem_cons_of_mem _ hp)) _
      (max_le ha (hb q (List.mem_cons_self _ _)))

theorem maxIntensityAcc_nonneg (l : List Peak) : 0 ≤ maxIntensityAcc l := by
  rw [maxIntensityAcc_eq_foldl_max]
  exact le_foldl_max l 0

theorem le_maxIntensityAcc {l : List Peak} {p : Peak} (hp : p ∈ l) :
    p.Intensity ≤ maxIntensityAcc l := by
  rw [maxIntensityAcc_eq_foldl_max]
  exact mem_le_foldl_max hp 0

theorem maxIntensityAcc_mono {l1 l2 : List Peak} (h : ∀ p ∈ l1, p ∈ l2) :
    maxIntensityAcc l1 ≤ maxIntensityAcc l2 := by
  rw [maxIntensityAcc_eq_foldl_max l1]
  exact foldl_max_le (fun p hp => le_maxIntensityAcc (h p hp)) 0
    (maxIntensityAcc_nonneg l2)

theorem ionStep_subset (c : Config) (s : Spectrum) :
    ∀ p ∈ (c.ionStep s).Peaks, p ∈ s.Peaks := by
  intro p hp
  unfold Config.ionStep Config.filterByIonType at hp
  split at hp
  · dsimp only at hp
    exact List.mem_of_mem_filter hp
  · exact hp

theorem cutoffStep_subset (c : Config) (s : Spectrum) :
    ∀ p ∈ (c.cutoffStep s).Peaks, p ∈ s.Peaks := by
  intro p hp
  unfold Config.cutoffStep Config.filterByIntensity at hp
  split at hp
  · split at hp
    · exact hp
    · dsimp only at hp
      exact List.mem_of_mem_filter hp
  · exact hp

theorem topNStep_subset (c : Config) (s : Spectrum) :
    ∀ p ∈ (c.topNStep s).Peaks, p ∈ s.Peaks := by
  intro p hp
  unfold Config.topNStep Config.filterTopN at hp
  split at hp
  · split at hp
    · exact hp
    · dsimp only at hp
      have h1 : p ∈ s.Peaks.insertionSort peakIntensityGE :=
        List.take_subset _ _ hp
      exact (List.perm_insertionSort peakIntensityGE s.Peaks).mem_iff.mp h1
  · exact hp

theorem ionStep_mem_matches (c : Config) (s : Spectrum) (hne : c.IonTypes ≠ []) :
    ∀ p ∈ (c.ionStep s).Peaks, matchesIonType p.Annot c.IonTypes = true := by
  intro p hp
  unfold Config.ionStep Config.filterByIonType at hp
  rw [if_pos hne, if_neg hne] at hp
  dsimp only at hp
  exact (List.mem_filter.mp hp).2

theorem cutoffStep_mem_ge (c : Config) (s : Spectrum)
    (hpos : 0 < c.IntensityCutoff) :
    ∀ p ∈ (c.cutoffStep s).Peaks,
      c.IntensityCutoff / 100 * maxIntensityAcc s.Peaks ≤ p.Intensity := by
  intro p hp
  unfold Config.cutoffStep Config.filterByIntensity at hp
  rw [if_pos hpos] at hp
  by_cases hn : s.Peaks = []
  · rw [if_pos hn] at hp
    exact absurd (hn ▸ hp) (List.not_mem_nil p)
  · rw [if_neg hn] at hp
    dsimp only at hp
    exact of_decide_eq_true (List.mem_filter.mp hp).2

theorem topNStep_length (c : Config) (s : Spectrum) (hpos : 0 < c.TopN) :
    ((c.topNStep s).Peaks.length : Int) ≤ c.TopN := by
  unfold Config.topNStep Config.filterTopN
  rw [if_pos hpos]
  split
  next hle => exact hle
  next hgt =>
    have hlen : ((s.Peaks.insertionSort peakIntensityGE).take c.TopN.toNat).length ≤
        c.TopN.toNat := by
      simp [List.length_take]
    calc (((s.Peaks.insertionSort peakIntensityGE).take c.TopN.toNat).length : Int)
        ≤ (c.TopN.toNat : Int) := by exact_mod_cast hlen
      _ = c.TopN := Int.toNat_of_nonneg hpos.le

/-- A spectrum already in the pipeline's image is a fixed point of `Apply`
(with the fragment-adjustment stage disabled). -/
theorem apply_fixed (c : Config) (t : Spectrum)
    (hadj : c.OldModMass = 0 ∨ c.NewModMass = 0)
    (hion : c.IonTypes ≠ [] → ∀ p ∈ t.Peaks, matchesIonType p.Annot c.IonTypes = true)
    (hcut : 0 < c.IntensityCutoff →
      ∀ p ∈ t.Peaks, c.IntensityCutoff / 100 * maxIntensityAcc t.Peaks ≤ p.Intensity)
    (htop : 0 < c.TopN → (t.Peaks.length : Int) ≤ c.TopN)
    (hsort : List.Sorted peakLE t.Peaks) :
    c.Apply t = t := by
  have h1 : c.ionStep t = t := by
    by_cases hne : c.IonTypes = []
    · simp [Config.ionStep, hne]
    · have hf : List.filter (fun p => matchesIonType p.Annot c.IonTypes) t.Peaks =
          t.Peaks :=
        List.filter_eq_self.mpr (hion hne)
      simp [Config.ionStep, Config.filterByIonType, hne, hf]
  have h2 : c.cutoffStep t = t := by
    by_cases hpos : 0 < c.IntensityCutoff
    · by_cases hnil : t.Peaks = []
      · simp [Config.cutoffStep, Config.filterByIntensity, hpos, hnil]
      · have hf : t.Peaks.filter
            (fun p => decide (c.IntensityCutoff / 100 * maxIntensityAcc t.Peaks ≤
              p.Intensity)) = t.Peaks :=
          List.filter_eq_self.mpr (fun p hp => decide_eq_true (hcut hpos p hp))
        simp [Config.cutoffStep, Config.filterByIntensity, hpos, hnil, hf]
    · simp [Config.cutoffStep, hpos]
  have h3 : c.topNStep t = t := by
    by_cases hpos : 0 < c.TopN
    · simp [Config.topNStep, Config.filterTopN, hpos, htop hpos]
    · simp [Config.topNStep, hpos]
  have h4 : c.adjustStep t = t := by
    have hno : ¬ (c.OldModMass ≠ 0 ∧ c.NewModMass ≠ 0) := by
      rcases hadj with h | h <;> simp [h]
    simp [Config.adjustStep, hno]
  have h5 : t.SortPeaks = t := by
    unfold Spectrum.SortPeaks
    rw [List.Sorted.insertionSort_eq hsort]
  unfold Config.Apply
  rw [h1, h2, h3, h4, h5]

/-- With the fragment-adjustment stage disabled, `Apply` is the three filter
stages followed by the sort. -/
theorem apply_eq_no_adjust (c : Config) (s : Spectrum)
    (hadj : c.OldModMass = 0 ∨ c.NewModMass = 0) :
    c.Apply s = (c.topNStep (c.cutoffStep (c.ionStep s))).SortPeaks := by
  have hno : ¬ (c.OldModMass ≠ 0 ∧ c.NewModMass ≠ 0) := by
    rcases hadj with h | h <;> simp [h]
  unfold Config.Apply Config.adjustStep
  rw [if_neg hno]

/-- C3 (amended): the filter pipeline is idempotent whenever the
fragment-mass-adjustment stage is disabled (`OldModMass = 0` or
`NewModMass = 0`): a second `Config.Apply` with the same configuration
changes nothing. -/
theorem c3_apply_idempotent_amended (c : Config) (s : Spectrum)
    (hadj : c.OldModMass = 0 ∨ c.NewModMass = 0) :
    c.Apply (c.Apply s) = c.Apply s := by
  have htP : (c.Apply s).Peaks =
      ((c.topNStep (c.cutoffStep (c.ionStep s))).Peaks).insertionSort peakLE := by
    rw [apply_eq_no_adjust c s hadj]; rfl
  have hsub : ∀ q ∈ (c.Apply s).Peaks, q ∈ (c.ionStep s).Peaks := by
    intro q hq
    rw [htP] at hq
    exact cutoffStep_subset _ _ _ (topNStep_subset _ _ _
      ((List.perm_insertionSort peakLE _).mem_iff.mp hq))
  apply apply_fixed c (c.Apply s) hadj
  · intro hne p hp
    exact ionStep_mem_matches c s hne p (hsub p hp)
  · intro hpos p hp
    have hp2 : p ∈ (c.topNStep (c.cutoffStep (c.ionStep s))).Peaks := by
      rw [htP] at hp
      exact (List.perm_insertionSort peakLE _).mem_iff.mp hp
    have hbound := cutoffStep_mem_ge c (c.ionStep s) hpos p
      (topNStep_subset _ _ _ hp2)
    have hmono : maxIntensityAcc (c.Apply s).Peaks ≤
        maxIntensityAcc (c.ionStep s).Peaks :=
      maxIntensityAcc_mono hsub
    have hcoef : 0 ≤ c.IntensityCutoff / 100 :=
      div_nonneg hpos.le (by norm_num)
    calc c.IntensityCutoff / 100 * maxIntensityAcc (c.Apply s).Peaks
        ≤ c.IntensityCutoff / 100 * maxIntensityAcc (c.ionStep s).Peaks :=
          mul_le_mul_of_nonneg_left hmono hcoef
      _ ≤ p.Intensity := hbound
  · intro hpos
    rw [htP, (List.perm_insertionSort peakLE _).length_eq]
    exact topNStep_length c _ hpos
  · rw [htP]
    exact List.sorted_insertionSort peakLE _

/-- Witness for C3 at a concrete configuration (ion filter `y`, cutoff 50%,
top-1) and spectrum, the disabled-adjustment hypothesis discharged. -/
theorem c3_witness :
    (c3wConfig.OldModMass = 0 ∨ c3wConfig.NewModMass = 0) ∧
      c3wConfig.Apply (c3wConfig.Apply c3wSpec) = c3wConfig.Apply c3wSpec :=
  ⟨Or.inl (by decide),
    c3_apply_idempotent_amended c3wConfig c3wSpec (Or.inl (by decide))⟩

/-- C3's counterexample to the claim as stated: with fragment adjustment
active (old 229.16, new 304.21) and a spectrum it fires on, the second
`Apply` shifts the matching peak's m/z again, so the pipeline is not
idempotent. -/
theorem c3_counterexample :
    c3xConfig.Apply (c3xConfig.Apply c3xSpec) ≠ c3xConfig.Apply c3xSpec := by
  decide

/-! ## C8: malformed Name lines are fatal per-record errors -/

theorem isPrefixOf_append_self (l m : List Char) : l.isPrefixOf (l ++ m) = true := by
  induction l with
  | nil => simp [List.isPrefixOf]
  | cons c t ih => simp [List.isPrefixOf, ih]

theorem goTrimPrefix_append (pfx rest : List Char) :
    goTrimPrefix (pfx ++ rest) pfx = rest := by
  unfold goTrimPrefix
  rw [if_pos (isPrefixOf_append_self pfx rest)]
  exact List.drop_left pfx rest

/-- A malformed Name payload (no two `/`-separated parts, or a non-integer
charge part) makes the MSP scanner loop stop at that line with the
line-numbered error. -/
theorem msp_bad_name (modDB : List Char → Option ℚ) (n : Nat) (name : List Char)
    (rest : List (List Char))
    (htrim : trimSpace (("Name: ").data ++ name) = ("Name: ").data ++ name)
    (hbad : (goSplit name (("/").data)).length ≠ 2 ∨
      ∀ a b, goSplit name (("/").data) = [a, b] → goAtoi b = none) :
    ∃ e,
      msp.readSpectrumAux modDB ((("Name: ").data ++ name) :: rest) n
          msp.initSpec 0 false 0 = (.error (lineErr (n + 1) e), rest, n + 1) := by
  obtain ⟨e0, he0⟩ : ∃ e0, msp.parseName msp.initSpec name = .error e0 := by
    unfold msp.parseName
    rcases hsp : goSplit name (("/").data) with _ | ⟨a, _ | ⟨b, _ | ⟨c, cs⟩⟩⟩
    · exact ⟨_, rfl⟩
    · exact ⟨_, rfl⟩
    · rcases hbad with hlen | hat
      · rw [hsp] at hlen; simp at hlen
      · refine ⟨("invalid charge in name '").data ++ name ++
          ("': strconv.Atoi: parsing \"").data ++ b ++ ("\": invalid syntax").data, ?_⟩
        simp [hat a b hsp]
    · exact ⟨_, rfl⟩
  have hN : ("Name: ").data ++ name = 'N' :: (("ame: ").data ++ name) := rfl
  have hne : ¬ ((("Name: ").data ++ name) = [] ∧ msp.initSpec.Sequence = []) := by
    rw [hN]
    simp
  refine ⟨e0, ?_⟩
  simp only [msp.readSpectrumAux]
  rw [htrim, if_neg hne]
  simp only [Bool.false_eq_true, false_and, if_false, Bool.not_false, if_true,
    isPrefixOf_append_self, goTrimPrefix_append, he0]

/-- The SPTXT analogue of `msp_bad_name`. -/
theorem sptxt_bad_name (modDB : List Char → Option ℚ) (n : Nat) (name : List Char)
    (rest : List (List Char))
    (htrim : trimSpace (("Name: ").data ++ name) = ("Name: ").data ++ name)
    (hbad : (goSplit name (("/").data)).length ≠ 2 ∨
      ∀ a b, goSplit name (("/").data) = [a, b] → goAtoi b = none) :
    ∃ e,
      sptxt.readSpectrumAux modDB ((("Name: ").data ++ name) :: rest) n
          sptxt.initSpec 0 false 0 = (.error (lineErr (n + 1) e), rest, n + 1) := by
  obtain ⟨e0, he0⟩ : ∃ e0, sptxt.parseName sptxt.initSpec name = .error e0 := by
    unfold sptxt.parseName
    rcases hsp : goSplit name (("/").data) with _ | ⟨a, _ | ⟨b, _ | ⟨c, cs⟩⟩⟩
    · exact ⟨_, rfl⟩
    · exact ⟨_, rfl⟩
    · rcases hbad with hlen | hat
      · rw [hsp] at hlen; simp at hlen
      · refine ⟨("invalid charge in name '").data ++ name ++
          ("': strconv.Atoi: parsing \"").data ++ b ++ ("\": invalid syntax").data, ?_⟩
        simp [hat a b hsp]
    · exact ⟨_, rfl⟩
  have hN : ("Name: ").data ++ name = 'N' :: (("ame: ").data ++ name) := rfl
  have hsharp : ((("###").data).isPrefixOf (("Name: ").data ++ name)) = false := rfl
  have hne : ¬ ((("Name: ").data ++ name) = [] ∨
      ((("###").data).isPrefixOf (("Name: ").data ++ name)) = true) := by
    rw [hsharp, hN]
    simp
  refine ⟨e0, ?_⟩
  simp only [sptxt.readSpectrumAux]
  rw [htrim, if_neg hne]
  simp only [Bool.false_eq_true, false_and, if_false, Bool.not_false, if_true,
    isPrefixOf_append_self, goTrimPrefix_append, he0]

/-- C8: in both readers a Name line whose `/`-suffix is absent or not an
integer is fatal for the record: `Next` returns false, `Err` carries an
error prefixed with the offending input line's number, and the driver loop
obtains no record at all from the stream positioned there. -/
theorem c8_bad_name_fatal :
    (∀ (modDB : List Char → Option ℚ) (n : Nat) (name : List Char)
        (rest : List (List Char)),
        trimSpace (("Name: ").data ++ name) = ("Name: ").data ++ name →
        ((goSplit name (("/").data)).length ≠ 2 ∨
          ∀ a b, goSplit name (("/").data) = [a, b] → goAtoi b = none) →
        (msp.next ⟨modDB, (("Name: ").data ++ name) :: rest, n, none, none⟩).1 = false ∧
        (∃ e, (msp.next ⟨modDB, (("Name: ").data ++ name) :: rest, n, none, none⟩).2.err =
            some e ∧
          ((("line ").data ++ natToChars (n + 1) ++ (": ").data).isPrefixOf e) = true) ∧
        msp.readAll ⟨modDB, (("Name: ").data ++ name) :: rest, n, none, none⟩ = []) ∧
    (∀ (modDB : List Char → Option ℚ) (n : Nat) (name : List Char)
        (rest : List (List Char)),
        trimSpace (("Name: ").data ++ name) = ("Name: ").data ++ name →
        ((goSplit name (("/").data)).length ≠ 2 ∨
          ∀ a b, goSplit name (("/").data) = [a, b] → goAtoi b = none) →
        (sptxt.next ⟨modDB, (("Name: ").data ++ name) :: rest, n, none, none⟩).1 = false ∧
        (∃ e, (sptxt.next ⟨modDB, (("Name: ").data ++ name) :: rest, n, none, none⟩).2.err =
            some e ∧
          ((("line ").data ++ natToChars (n + 1) ++ (": ").data).isPrefixOf e) = true) ∧
        sptxt.readAll ⟨modDB, (("Name: ").data ++ name) :: rest, n, none, none⟩ = []) := by
  constructor
  · intro modDB n name rest htrim hbad
    obtain ⟨e0, hr⟩ := msp_bad_name modDB n name rest htrim hbad
    have hnext : msp.next ⟨modDB, (("Name: ").data ++ name) :: rest, n, none, none⟩ =
        (false, ⟨modDB, rest, n + 1, none, some (lineErr (n + 1) e0)⟩) := by
      unfold msp.next
      rw [hr]
    refine ⟨by rw [hnext], ⟨lineErr (n + 1) e0, by rw [hnext], ?_⟩, ?_⟩
    · have hassoc : lineErr (n + 1) e0 =
          (("line ").data ++ natToChars (n + 1) ++ (": ").data) ++ e0 := by
        unfold lineErr
        simp [List.append_assoc]
      rw [hassoc]
      exact isPrefixOf_append_self _ _
    · unfold msp.readAll
      simp only [List.length_cons]
      rw [msp.readAllAux, hnext]
  · intro modDB n name rest htrim hbad
    obtain ⟨e0, hr⟩ := sptxt_bad_name modDB n name rest htrim hbad
    have hnext : sptxt.next ⟨modDB, (("Name: ").data ++ name) :: rest, n, none, none⟩ =
        (false, ⟨modDB, rest, n + 1, none, some (lineErr (n + 1) e0)⟩) := by
      unfold sptxt.next
      rw [hr]
    refine ⟨by rw [hnext], ⟨lineErr (n + 1) e0, by rw [hnext], ?_⟩, ?_⟩
    · have hassoc : lineErr (n + 1) e0 =
          (("line ").data ++ natToChars (n + 1) ++ (": ").data) ++ e0 := by
        unfold lineErr
        simp [List.append_assoc]
      rw [hassoc]
      exact isPrefixOf_append_self _ _
    · unfold sptxt.readAll
      simp only [List.length_cons]
      rw [sptxt.readAllAux, hnext]

/-- Witness for C8: the slash-free name `PEPTIDE` at line counter 4, in both
readers, with the hypotheses discharged concretely. -/
theorem c8_witness :
    ((msp.next ⟨fun _ => none, [(("Name: PEPTIDE").data)], 4, none, none⟩).1 = false ∧
      (∃ e, (msp.next ⟨fun _ => none, [(("Name: PEPTIDE").data)], 4, none, none⟩).2.err =
          some e ∧
        ((("line ").data ++ natToChars 5 ++ (": ").data).isPrefixOf e) = true) ∧
      msp.readAll ⟨fun _ => none, [(("Name: PEPTIDE").data)], 4, none, none⟩ = []) ∧
    ((sptxt.next ⟨fun _ => none, [(("Name: PEPTIDE").data)], 4, none, none⟩).1 = false ∧
      (∃ e, (sptxt.next ⟨fun _ => none, [(("Name: PEPTIDE").data)], 4, none, none⟩).2.err =
          some e ∧
        ((("line ").data ++ natToChars 5 ++ (": ").data).isPrefixOf e) = true) ∧
      sptxt.readAll ⟨fun _ => none, [(("Name: PEPTIDE").data)], 4, none, none⟩ = []) :=
  ⟨c8_bad_name_fatal.1 (fun _ => none) 4 (("PEPTIDE").data) [] (by decide)
      (Or.inl (by decide)),
    c8_bad_name_fatal.2 (fun _ => none) 4 (("PEPTIDE").data) [] (by decide)
      (Or.inl (by decide))⟩

/-! ## C9 helpers: decimal rendering, Atoi round trip, trimming, splitting -/

theorem natDigitsF_spec :
    ∀ (fuel n : Nat), n < fuel →
      natDigitsF fuel n ≠ [] ∧ (∀ d ∈ natDigitsF fuel n, d < 10) ∧
        (natDigitsF fuel n).foldl (fun a d => 10 * a + d) 0 = n := by
  intro fuel
  induction fuel with
  | zero => intro n h; exact absurd h (Nat.not_lt_zero n)
  | succ g ih =>
    intro n h
    by_cases h10 : n < 10
    · refine ⟨by simp [natDigitsF, h10], ?_, by simp [natDigitsF, h10]⟩
      intro d hd
      simp [natDigitsF, h10] at hd
      omega
    · have hdiv : n / 10 < g := by
        have h1 : n / 10 < n := Nat.div_lt_self (by omega) (by omega)
        omega
      obtain ⟨hne, hlt, hval⟩ := ih (n / 10) hdiv
      refine ⟨by simp [natDigitsF, h10], ?_, ?_⟩
      · intro d hd
        simp only [natDigitsF, h10, if_false, List.mem_append, List.mem_singleton] at hd
        rcases hd with hd | hd
        · exact hlt d hd
        · omega
      · simp only [natDigitsF, h10, if_false, List.foldl_append, hval, List.foldl_cons,
          List.foldl_nil]
        omega

theorem digitChar10_isDigit {d : Nat} (hd : d < 10) :
    (digitChar10 d).isDigit = true := by
  interval_cases d <;> rfl

theorem digitChar10_not_space {d : Nat} (hd : d < 10) :
    isSpaceChar (digitChar10 d) = false := by
  interval_cases d <;> rfl

theorem digitChar10_ne_plus {d : Nat} (hd : d < 10) : digitChar10 d ≠ '+' := by
  interval_cases d <;> decide

theorem digitChar10_ne_minus {d : Nat} (hd : d < 10) : digitChar10 d ≠ '-' := by
  interval_cases d <;> decide

theorem digitVal_digitChar10 {d : Nat} (hd : d < 10) :
    digitVal (digitChar10 d) = d := by
  interval_cases d <;> rfl

theorem natToChars_ne_nil (n : Nat) : natToChars n ≠ [] := by
  unfold natToChars
  have := (natDigitsF_spec (n + 1) n (Nat.lt_succ_self n)).1
  simp [this]

theorem natToChars_mem (n : Nat) :
    ∀ ch ∈ natToChars n, ch.isDigit = true ∧ isSpaceChar ch = false := by
  intro ch hch
  unfold natToChars at hch
  obtain ⟨d, hd, rfl⟩ := List.mem_map.mp hch
  have hlt := (natDigitsF_spec (n + 1) n (Nat.lt_succ_self n)).2.1 d hd
  exact ⟨digitChar10_isDigit hlt, digitChar10_not_space hlt⟩

theorem foldl_digitsVal_map (l : List Nat) (h : ∀ d ∈ l, d < 10) :
    ∀ a : Nat, (l.map digitChar10).foldl (fun acc c => 10 * acc + digitVal c) a =
      l.foldl (fun acc d => 10 * acc + d) a := by
  induction l with
  | nil => intro a; rfl
  | cons d t ih =>
    intro a
    simp only [List.map_cons, List.foldl_cons,
      digitVal_digitChar10 (h d (List.mem_cons_self d t))]
    exact ih (fun x hx => h x (List.mem_cons_of_mem _ hx)) _

/-- The catch-all branch of `goAtoi` on a digit string. -/
theorem goAtoi_digits (c : Char) (t : List Char) (hcp : c ≠ '+') (hcm : c ≠ '-')
    (hall : (c :: t).all Char.isDigit = true) :
    goAtoi (c :: t) = some ((digitsVal (c :: t) : Int)) := by
  rw [goAtoi.eq_def]
  split
  · simp_all
  next ds heq => exact absurd (List.head_eq_of_cons_eq heq.symm).symm hcp
  next ds heq => exact absurd (List.head_eq_of_cons_eq heq.symm).symm hcm
  next x h1 h2 h3 => rw [if_pos hall]

/-- `strconv.Atoi` round trip for this file's decimal rendering. -/
theorem goAtoi_natToChars (n : Nat) : goAtoi (natToChars n) = some (n : Int) := by
  obtain ⟨hne, hlt, hval⟩ := natDigitsF_spec (n + 1) n (Nat.lt_succ_self n)
  have hall : (natToChars n).all Char.isDigit = true := by
    rw [List.all_eq_true]
    intro ch hch
    exact (natToChars_mem n ch hch).1
  have hdval : digitsVal (natToChars n) = n := by
    unfold digitsVal natToChars
    rw [foldl_digitsVal_map (natDigitsF (n + 1) n) hlt 0, hval]
  match hnc : natToChars n with
  | [] => exact absurd hnc (natToChars_ne_nil n)
  | c :: t =>
    have hmem := natToChars_mem n c (hnc ▸ List.mem_cons_self c t)
    have hcp : c ≠ '+' := by
      intro h
      rw [h] at hmem
      simp at hmem
    have hcm : c ≠ '-' := by
      intro h
      rw [h] at hmem
      simp at hmem
    rw [goAtoi_digits c t hcp hcm (hnc ▸ hall), ← hnc, hdval]

theorem trimSpace_cons_concat {c d : Char} (mid : List Char)
    (hc : isSpaceChar c = false) (hd : isSpaceChar d = false) :
    trimSpace (c :: (mid ++ [d])) = c :: (mid ++ [d]) := by
  unfold trimSpace
  rw [List.dropWhile_cons_of_neg (by simp [hc])]
  have h1 : (c :: (mid ++ [d])).reverse = d :: (mid.reverse ++ [c]) := by simp
  rw [h1, List.dropWhile_cons_of_neg (by simp [hd]), ← h1, List.reverse_reverse]

theorem goSplitF_irrel (sep : List Char) :
    ∀ (f1 : Nat) (s : List Char) (f2 : Nat), s.length < f1 → s.length < f2 →
      goSplitF sep f1 s = goSplitF sep f2 s := by
  intro f1
  induction f1 with
  | zero => intro s f2 h1 _; exact absurd h1 (Nat.not_lt_zero _)
  | succ g1 ih =>
    intro s f2 h1 h2
    match s, f2, h2 with
    | [], g2 + 1, _ => rfl
    | c :: rest, g2 + 1, h2 =>
      simp only [goSplitF]
      by_cases hp : sep.isPrefixOf (c :: rest)
      · rw [if_pos hp, if_pos hp,
          ih (rest.drop (sep.length - 1)) g2 ?_ ?_]
        · have := List.length_drop (sep.length - 1) rest
          simp only [List.length_cons] at h1
          omega
        · have := List.length_drop (sep.length - 1) rest
          simp only [List.length_cons] at h2
          omega
      · rw [if_neg hp, if_neg hp,
          ih rest g2 ?_ ?_]
        · simp only [List.length_cons] at h1
          omega
        · simp only [List.length_cons] at h2
          omega

theorem goSplitF_no_sep (c : Char) :
    ∀ (l : List Char) (fuel : Nat), c ∉ l → l.length < fuel →
      goSplitF [c] fuel l = [l] := by
  intro l
  induction l with
  | nil =>
    intro fuel _ hf
    match fuel, hf with
    | g + 1, _ => rfl
  | cons x t ih =>
    intro fuel hc hf
    match fuel, hf with
    | g + 1, hf =>
      have hcx : (c == x) = false :=
        beq_eq_false_iff_ne.mpr (fun h => hc (h ▸ List.mem_cons_self x t))
      simp only [goSplitF]
      rw [if_neg (by simp [List.isPrefixOf, hcx]),
        ih g (fun h => hc (List.mem_cons_of_mem _ h))
          (by simp only [List.length_cons] at hf; omega)]

theorem goSplitF_cons_sep (c : Char) :
    ∀ (a b : List Char) (fuel : Nat), c ∉ a → (a ++ c :: b).length < fuel →
      goSplitF [c] fuel (a ++ c :: b) = a :: goSplitF [c] (b.length + 1) b := by
  intro a
  induction a with
  | nil =>
    intro b fuel _ hf
    match fuel, hf with
    | g + 1, hf =>
      simp only [List.nil_append, goSplitF]
      rw [if_pos (by simp [List.isPrefixOf])]
      have hdrop : b.drop (([c] : List Char).length - 1) = b := by simp
      rw [hdrop,
        goSplitF_irrel [c] g b (b.length + 1)
          (by simp only [List.nil_append, List.length_cons] at hf; omega)
          (Nat.lt_succ_self _)]
  | cons x a2 ih =>
    intro b fuel hc hf
    match fuel, hf with
    | g + 1, hf =>
      have hcx : (c == x) = false :=
        beq_eq_false_iff_ne.mpr (fun h => hc (h ▸ List.mem_cons_self x a2))
      simp only [List.cons_append, goSplitF]
      rw [if_neg (by simp [List.isPrefixOf, hcx])]
      simp only [List.append_eq]
      rw [ih b g (fun h => hc (List.mem_cons_of_mem _ h))
          (by simp only [List.cons_append, List.length_cons] at hf ⊢; omega)]

/-- Splitting `SEQ/2` at `/` when the sequence holds no slash. -/
theorem goSplit_name_charge (seq : List Char) (h : ('/' : Char) ∉ seq) :
    goSplit (seq ++ ("/2").data) (("/").data) = [seq, ("2").data] := by
  show goSplitF (("/").data) ((seq ++ ("/2").data).length + 1) (seq ++ ("/2").data) =
    [seq, ("2").data]
  have h2 : seq ++ ("/2").data = seq ++ '/' :: ['2'] := rfl
  rw [h2, goSplitF_cons_sep '/' seq ['2'] _ h (Nat.lt_succ_self _)]
  rfl

/-! ## C9: partially-read records at end of stream are still yielded -/

theorem trimSpace_name_line (seq : List Char) :
    trimSpace (("Name: ").data ++ seq ++ ("/2").data) =
      ("Name: ").data ++ seq ++ ("/2").data := by
  have hform : ("Name: ").data ++ seq ++ ("/2").data =
      'N' :: ((("ame: ").data ++ seq ++ ['/']) ++ ['2']) := by
    rw [show ("Name: ").data = 'N' :: ("ame: ").data from rfl,
      show ("/2").data = ['/'] ++ ['2'] from rfl]
    simp [List.append_assoc]
  rw [hform]
  exact trimSpace_cons_concat _ rfl rfl

theorem trimSpace_digit_tail_line (pre : List Char) (c : Char) (n : Nat)
    (hpre : pre = c :: pre.tail) (hc : isSpaceChar c = false) :
    trimSpace (pre ++ natToChars n) = pre ++ natToChars n := by
  have hnn := natToChars_ne_nil n
  have hL : (natToChars n).dropLast ++ [(natToChars n).getLast hnn] = natToChars n :=
    List.dropLast_append_getLast hnn
  have hform : pre ++ natToChars n =
      c :: ((pre.tail ++ (natToChars n).dropLast) ++ [(natToChars n).getLast hnn]) := by
    conv_lhs => rw [hpre, ← hL]
    simp [List.append_assoc]
  rw [hform]
  refine trimSpace_cons_concat _ hc ?_
  exact (natToChars_mem n _ (List.getLast_mem hnn)).2

/-- The peaks phase of the MSP scanner on `k` copies of the peak line
`100 200`, stopping at end of stream with the partial record. -/
theorem msp_read_peaks (modDB : List Char → Option ℚ) :
    ∀ (k n : Nat) (spec : Spectrum) (numPeaks : Int) (pr : Nat),
      spec.Sequence ≠ [] → ((pr : Int) + (k : Int) < numPeaks) →
      msp.readSpectrumAux modDB (List.replicate k (("100 200").data)) n spec
          numPeaks true pr =
        (.ok (some {spec with
          Peaks := spec.Peaks ++ List.replicate k (⟨100, 200, [], 0⟩ : Peak)}),
         [], n + k) := by
  intro k
  induction k with
  | zero =>
    intro n spec numPeaks pr hseq _
    simp only [List.replicate_zero, msp.readSpectrumAux]
    rw [if_pos hseq]
    simp
  | succ k ih =>
    intro n spec numPeaks pr hseq hlt
    rw [List.replicate_succ]
    simp only [msp.readSpectrumAux]
    rw [show trimSpace (("100 200").data) = ("100 200").data from rfl]
    rw [if_neg (show ¬((("100 200").data) = [] ∧ spec.Sequence = []) from
      fun h => absurd h.1 (by decide))]
    rw [if_neg (show ¬(True ∧ numPeaks ≤ ((pr : Nat) : Int)) from
      fun h => absurd h.2 (by omega))]
    rw [if_neg (show ¬((!true) = true) from by decide)]
    simp only [show msp.parsePeak (("100 200").data) =
      Except.ok (⟨100, 200, [], 0⟩ : Peak) from rfl]
    rw [if_neg (show ¬(numPeaks ≤ ((pr + 1 : Nat) : Int)) from by omega)]
    rw [ih (n + 1) {spec with Peaks := spec.Peaks ++ [⟨100, 200, [], 0⟩]} numPeaks
      (pr + 1) hseq (by omega)]
    simp [List.replicate_succ, List.append_assoc, Nat.add_comm, Nat.add_assoc,
      Nat.add_left_comm]

/-- The peaks phase of the SPTXT scanner on `k` copies of the peak line
`100 200`, stopping at end of stream with the partial record. -/
theorem sptxt_read_peaks (modDB : List Char → Option ℚ) :
    ∀ (k n : Nat) (spec : Spectrum) (numPeaks : Int) (pr : Nat),
      spec.Sequence ≠ [] → ((pr : Int) + (k : Int) < numPeaks) →
      sptxt.readSpectrumAux modDB (List.replicate k (("100 200").data)) n spec
          numPeaks true pr =
        (.ok (some {spec with
          Peaks := spec.Peaks ++ List.replicate k (⟨100, 200, [], 0⟩ : Peak)}),
         [], n + k) := by
  intro k
  induction k with
  | zero =>
    intro n spec numPeaks pr hseq _
    simp only [List.replicate_zero, sptxt.readSpectrumAux]
    rw [if_pos hseq]
    simp
  | succ k ih =>
    intro n spec numPeaks pr hseq hlt
    rw [List.replicate_succ]
    simp only [sptxt.readSpectrumAux]
    rw [show trimSpace (("100 200").data) = ("100 200").data from rfl]
    rw [if_neg (show ¬((("100 200").data) = [] ∨
        (("###").data).isPrefixOf (("100 200").data) = true) from by decide)]
    rw [if_neg (show ¬(True ∧ numPeaks ≤ ((pr : Nat) : Int)) from
      fun h => absurd h.2 (by omega))]
    rw [if_neg (show ¬((!true) = true) from by decide)]
    simp only [show sptxt.parsePeak (("100 200").data) =
      Except.ok (⟨100, 200, [], 0⟩ : Peak) from rfl]
    rw [if_neg (show ¬(numPeaks ≤ ((pr + 1 : Nat) : Int)) from by omega)]
    rw [ih (n + 1) {spec with Peaks := spec.Peaks ++ [⟨100, 200, [], 0⟩]} numPeaks
      (pr + 1) hseq (by omega)]
    simp [List.replicate_succ, List.append_assoc, Nat.add_comm, Nat.add_assoc,
      Nat.add_left_comm]

/-- The MSP scanner on a truncated record: a `Name:` line, a `Num peaks: N`
line and only `k < N` peak lines still returns the partial record. -/
theorem msp_header_family (modDB : List Char → Option ℚ) (seq : List Char)
    (N k : Nat) (hseq : seq ≠ []) (hslash : ('/' : Char) ∉ seq)
    (hk : k < N) :
    msp.readSpectrumAux modDB
        ((("Name: ").data ++ seq ++ ("/2").data) ::
          ((("Num peaks: ").data) ++ natToChars N) ::
          List.replicate k (("100 200").data)) 0 msp.initSpec 0 false 0 =
      (.ok (some {msp.initSpec with
        Sequence := seq
        Charge := 2
        Peaks := List.replicate k (⟨100, 200, [], 0⟩ : Peak)}), [], k + 2) := by
  have hNne : (("Name: ").data) ≠ [] := by decide
  have hpn : msp.parseName msp.initSpec (seq ++ ("/2").data) =
      .ok {msp.initSpec with Sequence := seq, Charge := 2} := by
    unfold msp.parseName
    rw [goSplit_name_charge seq hslash]
    rfl
  have htrim2 : trimSpace ((("Num peaks: ").data) ++ natToChars N) =
      (("Num peaks: ").data) ++ natToChars N :=
    trimSpace_digit_tail_line _ 'N' N rfl rfl
  have hname2 : (("Name: ").data).isPrefixOf ((("Num peaks: ").data) ++
      natToChars N) = false := rfl
  have hmw2 : (("MW: ").data).isPrefixOf ((("Num peaks: ").data) ++
      natToChars N) = false := rfl
  have hcm2 : (("Comment: ").data).isPrefixOf ((("Num peaks: ").data) ++
      natToChars N) = false := rfl
  simp only [msp.readSpectrumAux]
  rw [trimSpace_name_line seq]
  rw [List.append_assoc (("Name: ").data) seq (("/2").data)]
  rw [if_neg (show ¬((("Name: ").data ++ (seq ++ ("/2").data)) = [] ∧
      msp.initSpec.Sequence = []) from
    fun h => hNne (List.append_eq_nil.mp h.1).1)]
  simp only [Bool.false_eq_true, false_and, if_false, Bool.not_false, if_true,
    isPrefixOf_append_self, goTrimPrefix_append, hpn]
  rw [htrim2]
  rw [if_neg (show ¬(((("Num peaks: ").data) ++ natToChars N) = [] ∧ seq = []) from
    fun h => hseq h.2)]
  rw [hname2, hmw2, hcm2]
  simp only [Bool.false_eq_true, false_and, if_false, Bool.not_false, if_true,
    isPrefixOf_append_self, goTrimPrefix_append, goAtoi_natToChars]
  rw [msp_read_peaks modDB k 2 _ ((N : Nat) : Int) 0 hseq (by omega)]
  simp [msp.initSpec, emptySpectrum, Nat.add_comm]

/-- The MSP scanner on a record truncated right after its `Name:` line. -/
theorem msp_header_short (modDB : List Char → Option ℚ) (seq : List Char)
    (hseq : seq ≠ []) (hslash : ('/' : Char) ∉ seq)
    :
    msp.readSpectrumAux modDB [(("Name: ").data ++ seq ++ ("/2").data)]
        0 msp.initSpec 0 false 0 =
      (.ok (some {msp.initSpec with Sequence := seq, Charge := 2}), [], 1) := by
  have hNne : (("Name: ").data) ≠ [] := by decide
  have hpn : msp.parseName msp.initSpec (seq ++ ("/2").data) =
      .ok {msp.initSpec with Sequence := seq, Charge := 2} := by
    unfold msp.parseName
    rw [goSplit_name_charge seq hslash]
    rfl
  simp only [msp.readSpectrumAux]
  rw [trimSpace_name_line seq]
  rw [List.append_assoc (("Name: ").data) seq (("/2").data)]
  rw [if_neg (show ¬((("Name: ").data ++ (seq ++ ("/2").data)) = [] ∧
      msp.initSpec.Sequence = []) from
    fun h => hNne (List.append_eq_nil.mp h.1).1)]
  simp only [Bool.false_eq_true, false_and, if_false, Bool.not_false, if_true,
    isPrefixOf_append_self, goTrimPrefix_append, hpn]
  rw [if_pos hseq]

/-- The SPTXT scanner on a truncated record: a `Name:` line, a `NumPeaks: N`
line and only `k < N` peak lines still returns the partial record. -/
theorem sptxt_header_family (modDB : List Char → Option ℚ) (seq : List Char)
    (N k : Nat) (hseq : seq ≠ []) (hslash : ('/' : Char) ∉ seq)
    (hnb : sptxt.hasBracketToken seq = false)
    (hk : k < N) :
    sptxt.readSpectrumAux modDB
        ((("Name: ").data ++ seq ++ ("/2").data) ::
          ((("NumPeaks: ").data) ++ natToChars N) ::
          List.replicate k (("100 200").data)) 0 sptxt.initSpec 0 false 0 =
      (.ok (some {sptxt.initSpec with
        Charge := 2
        Sequence := seq
        Peaks := List.replicate k (⟨100, 200, [], 0⟩ : Peak)}), [], k + 2) := by
  have hNne : (("Name: ").data) ≠ [] := by decide
  have hNPne : (("NumPeaks: ").data) ≠ [] := by decide
  have hinl : sptxt.parseInlineModifications seq = .ok (seq, []) :=
    inlineScanF_id seq (seq.length + 1) 0 (Nat.lt_succ_self _) hnb
  have hpn : sptxt.parseName sptxt.initSpec (seq ++ ("/2").data) =
      .ok {sptxt.initSpec with Charge := 2, Sequence := seq, Modifications := []} := by
    unfold sptxt.parseName
    rw [goSplit_name_charge seq hslash]
    simp only [show goAtoi (("2").data) = some (2 : Int) from rfl, hinl]
  have hsharp1 : (("###").data).isPrefixOf
      ((("Name: ").data) ++ (seq ++ ("/2").data)) = false := rfl
  have hsharp2 : (("###").data).isPrefixOf
      ((("NumPeaks: ").data) ++ natToChars N) = false := rfl
  have htrim2 : trimSpace ((("NumPeaks: ").data) ++ natToChars N) =
      (("NumPeaks: ").data) ++ natToChars N :=
    trimSpace_digit_tail_line _ 'N' N rfl rfl
  have hname2 : (("Name: ").data).isPrefixOf ((("NumPeaks: ").data) ++
      natToChars N) = false := rfl
  have hmw2 : (("MW: ").data).isPrefixOf ((("NumPeaks: ").data) ++
      natToChars N) = false := rfl
  have hpmz2 : (("PrecursorMZ: ").data).isPrefixOf ((("NumPeaks: ").data) ++
      natToChars N) = false := rfl
  have hcm2 : (("Comment: ").data).isPrefixOf ((("NumPeaks: ").data) ++
      natToChars N) = false := rfl
  simp only [sptxt.readSpectrumAux]
  rw [trimSpace_name_line seq]
  rw [List.append_assoc (("Name: ").data) seq (("/2").data)]
  rw [if_neg (show ¬((("Name: ").data ++ (seq ++ ("/2").data)) = [] ∨
      (("###").data).isPrefixOf (("Name: ").data ++ (seq ++ ("/2").data)) = true) from
    fun h => h.elim (fun h1 => hNne (List.append_eq_nil.mp h1).1)
      (fun h2 => absurd h2 (by rw [hsharp1]; decide)))]
  simp only [Bool.false_eq_true, false_and, if_false, Bool.not_false, if_true,
    isPrefixOf_append_self, goTrimPrefix_append, hpn]
  rw [htrim2]
  rw [if_neg (show ¬(((("NumPeaks: ").data) ++ natToChars N) = [] ∨
      (("###").data).isPrefixOf ((("NumPeaks: ").data) ++ natToChars N) = true) from
    fun h => h.elim (fun h1 => hNPne (List.append_eq_nil.mp h1).1)
      (fun h2 => absurd h2 (by rw [hsharp2]; decide)))]
  rw [hname2, hmw2, hpmz2, hcm2]
  simp only [Bool.false_eq_true, false_and, if_false, Bool.not_false, if_true,
    isPrefixOf_append_self, goTrimPrefix_append, goAtoi_natToChars]
  rw [sptxt_read_peaks modDB k 2 _ ((N : Nat) : Int) 0 hseq (by omega)]
  simp [sptxt.initSpec, emptySpectrum, Nat.add_comm]

/-- The SPTXT scanner on a record truncated right after its `Name:` line. -/
theorem sptxt_header_short (modDB : List Char → Option ℚ) (seq : List Char)
    (hseq : seq ≠ []) (hslash : ('/' : Char) ∉ seq)
    (hnb : sptxt.hasBracketToken seq = false)
    :
    sptxt.readSpectrumAux modDB [(("Name: ").data ++ seq ++ ("/2").data)]
        0 sptxt.initSpec 0 false 0 =
      (.ok (some {sptxt.initSpec with
        Charge := 2
        Sequence := seq
        Modifications := []}), [], 1) := by
  have hNne : (("Name: ").data) ≠ [] := by decide
  have hinl : sptxt.parseInlineModifications seq = .ok (seq, []) :=
    inlineScanF_id seq (seq.length + 1) 0 (Nat.lt_succ_self _) hnb
  have hpn : sptxt.parseName sptxt.initSpec (seq ++ ("/2").data) =
      .ok {sptxt.initSpec with Charge := 2, Sequence := seq, Modifications := []} := by
    unfold sptxt.parseName
    rw [goSplit_name_charge seq hslash]
    simp only [show goAtoi (("2").data) = some (2 : Int) from rfl, hinl]
  have hsharp1 : (("###").data).isPrefixOf
      ((("Name: ").data) ++ (seq ++ ("/2").data)) = false := rfl
  simp only [sptxt.readSpectrumAux]
  rw [trimSpace_name_line seq]
  rw [List.append_assoc (("Name: ").data) seq (("/2").data)]
  rw [if_neg (show ¬((("Name: ").data ++ (seq ++ ("/2").data)) = [] ∨
      (("###").data).isPrefixOf (("Name: ").data ++ (seq ++ ("/2").data)) = true) from
    fun h => h.elim (fun h1 => hNne (List.append_eq_nil.mp h1).1)
      (fun h2 => absurd h2 (by rw [hsharp1]; decide)))]
  simp only [Bool.false_eq_true, false_and, if_false, Bool.not_false, if_true,
    isPrefixOf_append_self, goTrimPrefix_append, hpn]
  rw [if_pos hseq]

/-- C9: For both the MSP and SPTXT readers, a record truncated by end of
stream — header seen but fewer than the declared `N` peak lines consumed, or
no peak-count line at all — is still yielded once: `Next` returns `true` with
the partial record as the current spectrum and no error, and the subsequent
`Next` returns `false` with the stored error still `nil`.  A genuinely empty
stream yields nothing: `Next` is `false` with `Err` `nil` at once. -/
theorem c9_partial_record_yielded :
    (∀ (modDB : List Char → Option ℚ) (seq : List Char) (N k : Nat)
        (r : msp.Reader),
      seq ≠ [] → ('/' : Char) ∉ seq → k < N →
      r = ⟨modDB, (("Name: ").data ++ seq ++ ("/2").data) ::
            ((("Num peaks: ").data) ++ natToChars N) ::
            List.replicate k (("100 200").data), 0, none, none⟩ →
      (msp.next r).1 = true ∧
      (msp.next r).2.currentSpec = some {msp.initSpec with
        Sequence := seq
        Charge := 2
        Peaks := List.replicate k (⟨100, 200, [], 0⟩ : Peak)} ∧
      (msp.next r).2.err = none ∧
      (msp.next (msp.next r).2).1 = false ∧
      (msp.next (msp.next r).2).2.err = none) ∧
    (∀ (modDB : List Char → Option ℚ) (seq : List Char) (r : msp.Reader),
      seq ≠ [] → ('/' : Char) ∉ seq →
      r = ⟨modDB, [(("Name: ").data ++ seq ++ ("/2").data)], 0, none, none⟩ →
      (msp.next r).1 = true ∧
      (msp.next r).2.currentSpec =
        some {msp.initSpec with Sequence := seq, Charge := 2} ∧
      (msp.next r).2.err = none ∧
      (msp.next (msp.next r).2).1 = false ∧
      (msp.next (msp.next r).2).2.err = none) ∧
    (∀ (modDB : List Char → Option ℚ) (r : msp.Reader),
      r = ⟨modDB, [], 0, none, none⟩ →
      (msp.next r).1 = false ∧ (msp.next r).2.err = none) ∧
    (∀ (modDB : List Char → Option ℚ) (seq : List Char) (N k : Nat)
        (r : sptxt.Reader),
      seq ≠ [] → ('/' : Char) ∉ seq → sptxt.hasBracketToken seq = false → k < N →
      r = ⟨modDB, (("Name: ").data ++ seq ++ ("/2").data) ::
            ((("NumPeaks: ").data) ++ natToChars N) ::
            List.replicate k (("100 200").data), 0, none, none⟩ →
      (sptxt.next r).1 = true ∧
      (sptxt.next r).2.currentSpec = some {sptxt.initSpec with
        Charge := 2
        Sequence := seq
        Peaks := List.replicate k (⟨100, 200, [], 0⟩ : Peak)} ∧
      (sptxt.next r).2.err = none ∧
      (sptxt.next (sptxt.next r).2).1 = false ∧
      (sptxt.next (sptxt.next r).2).2.err = none) ∧
    (∀ (modDB : List Char → Option ℚ) (seq : List Char) (r : sptxt.Reader),
      seq ≠ [] → ('/' : Char) ∉ seq → sptxt.hasBracketToken seq = false →
      r = ⟨modDB, [(("Name: ").data ++ seq ++ ("/2").data)], 0, none, none⟩ →
      (sptxt.next r).1 = true ∧
      (sptxt.next r).2.currentSpec = some {sptxt.initSpec with
        Charge := 2
        Sequence := seq
        Modifications := []} ∧
      (sptxt.next r).2.err = none ∧
      (sptxt.next (sptxt.next r).2).1 = false ∧
      (sptxt.next (sptxt.next r).2).2.err = none) ∧
    (∀ (modDB : List Char → Option ℚ) (r : sptxt.Reader),
      r = ⟨modDB, [], 0, none, none⟩ →
      (sptxt.next r).1 = false ∧ (sptxt.next r).2.err = none) := by
  refine ⟨?_, ?_, ?_, ?_, ?_, ?_⟩
  · intro modDB seq N k r hseq hslash hk hr
    subst hr
    have h1 : msp.next (⟨modDB,
        (("Name: ").data ++ seq ++ ("/2").data) ::
          ((("Num peaks: ").data) ++ natToChars N) ::
          List.replicate k (("100 200").data), 0, none, none⟩ : msp.Reader) =
        (true, ⟨modDB, [], k + 2, some {msp.initSpec with
          Sequence := seq
          Charge := 2
          Peaks := List.replicate k (⟨100, 200, [], 0⟩ : Peak)}, none⟩) := by
      simp only [msp.next]
      rw [msp_header_family modDB seq N k hseq hslash hk]
    have h2 : msp.next (⟨modDB, [], k + 2, some {msp.initSpec with
        Sequence := seq
        Charge := 2
        Peaks := List.replicate k (⟨100, 200, [], 0⟩ : Peak)}, none⟩ :
          msp.Reader) =
        (false, ⟨modDB, [], k + 2, none, none⟩) := by
      simp only [msp.next]
      rw [show msp.readSpectrumAux modDB [] (k + 2) msp.initSpec 0 false 0 =
        (Except.ok (none : Option Spectrum), ([] : List (List Char)), k + 2)
        from rfl]
    exact ⟨by simp only [h1], by simp only [h1], by simp only [h1],
      by simp only [h1, h2], by simp only [h1, h2]⟩
  · intro modDB seq r hseq hslash hr
    subst hr
    have h1 : msp.next (⟨modDB, [(("Name: ").data ++ seq ++ ("/2").data)],
        0, none, none⟩ : msp.Reader) =
        (true, ⟨modDB, [], 1,
          some {msp.initSpec with Sequence := seq, Charge := 2}, none⟩) := by
      simp only [msp.next]
      rw [msp_header_short modDB seq hseq hslash]
    have h2 : msp.next (⟨modDB, [], 1,
        some {msp.initSpec with Sequence := seq, Charge := 2}, none⟩ :
          msp.Reader) =
        (false, ⟨modDB, [], 1, none, none⟩) := by
      simp only [msp.next]
      rw [show msp.readSpectrumAux modDB [] 1 msp.initSpec 0 false 0 =
        (Except.ok (none : Option Spectrum), ([] : List (List Char)), 1)
        from rfl]
    exact ⟨by simp only [h1], by simp only [h1], by simp only [h1],
      by simp only [h1, h2], by simp only [h1, h2]⟩
  · intro modDB r hr
    subst hr
    have h2 : msp.next (⟨modDB, [], 0, none, none⟩ : msp.Reader) =
        (false, ⟨modDB, [], 0, none, none⟩) := by
      simp only [msp.next]
      rw [show msp.readSpectrumAux modDB [] 0 msp.initSpec 0 false 0 =
        (Except.ok (none : Option Spectrum), ([] : List (List Char)), 0)
        from rfl]
    exact ⟨by simp only [h2], by simp only [h2]⟩
  · intro modDB seq N k r hseq hslash hnb hk hr
    subst hr
    have h1 : sptxt.next (⟨modDB,
        (("Name: ").data ++ seq ++ ("/2").data) ::
          ((("NumPeaks: ").data) ++ natToChars N) ::
          List.replicate k (("100 200").data), 0, none, none⟩ : sptxt.Reader) =
        (true, ⟨modDB, [], k + 2, some {sptxt.initSpec with
          Charge := 2
          Sequence := seq
          Peaks := List.replicate k (⟨100, 200, [], 0⟩ : Peak)}, none⟩) := by
      simp only [sptxt.next]
      rw [sptxt_header_family modDB seq N k hseq hslash hnb hk]
    have h2 : sptxt.next (⟨modDB, [], k + 2, some {sptxt.initSpec with
        Charge := 2
        Sequence := seq
        Peaks := List.replicate k (⟨100, 200, [], 0⟩ : Peak)}, none⟩ :
          sptxt.Reader) =
        (false, ⟨modDB, [], k + 2, none, none⟩) := by
      simp only [sptxt.next]
      rw [show sptxt.readSpectrumAux modDB [] (k + 2) sptxt.initSpec 0 false 0 =
        (Except.ok (none : Option Spectrum), ([] : List (List Char)), k + 2)
        from rfl]
    exact ⟨by simp only [h1], by simp only [h1], by simp only [h1],
      by simp only [h1, h2], by simp only [h1, h2]⟩
  · intro modDB seq r hseq hslash hnb hr
    subst hr
    have h1 : sptxt.next (⟨modDB, [(("Name: ").data ++ seq ++ ("/2").data)],
        0, none, none⟩ : sptxt.Reader) =
        (true, ⟨modDB, [], 1, some {sptxt.initSpec with
          Charge := 2
          Sequence := seq
          Modifications := []}, none⟩) := by
      simp only [sptxt.next]
      rw [sptxt_header_short modDB seq hseq hslash hnb]
    have h2 : sptxt.next (⟨modDB, [], 1, some {sptxt.initSpec with
        Charge := 2
        Sequence := seq
        Modifications := []}, none⟩ : sptxt.Reader) =
        (false, ⟨modDB, [], 1, none, none⟩) := by
      simp only [sptxt.next]
      rw [show sptxt.readSpectrumAux modDB [] 1 sptxt.initSpec 0 false 0 =
        (Except.ok (none : Option Spectrum), ([] : List (List Char)), 1)
        from rfl]
    exact ⟨by simp only [h1], by simp only [h1], by simp only [h1],
      by simp only [h1, h2], by simp only [h1, h2]⟩
  · intro modDB r hr
    subst hr
    have h2 : sptxt.next (⟨modDB, [], 0, none, none⟩ : sptxt.Reader) =
        (false, ⟨modDB, [], 0, none, none⟩) := by
      simp only [sptxt.next]
      rw [show sptxt.readSpectrumAux modDB [] 0 sptxt.initSpec 0 false 0 =
        (Except.ok (none : Option Spectrum), ([] : List (List Char)), 0)
        from rfl]
    exact ⟨by simp only [h2], by simp only [h2]⟩

/-- Concrete instance of C9: both readers, on a stream declaring 3 peaks but
holding only one peak line after the name `AB/2`, still yield the record. -/
theorem c9_witness :
    (msp.next ⟨fun _ => none,
      (("Name: ").data ++ ("AB").data ++ ("/2").data) ::
        ((("Num peaks: ").data) ++ natToChars 3) ::
        List.replicate 1 (("100 200").data), 0, none, none⟩).1 = true ∧
    (sptxt.next ⟨fun _ => none,
      (("Name: ").data ++ ("AB").data ++ ("/2").data) ::
        ((("NumPeaks: ").data) ++ natToChars 3) ::
        List.replicate 1 (("100 200").data), 0, none, none⟩).1 = true :=
  ⟨(c9_partial_record_yielded.1 (fun _ => none) (("AB").data) 3 1 _
      (by decide) (by decide) (by decide) rfl).1,
   (c9_partial_record_yielded.2.2.2.1 (fun _ => none) (("AB").data) 3 1 _
      (by decide) (by decide) (by decide) (by decide) rfl).1⟩

end DBKey
